import Mathlib

/-!
Verification of the cclint core (agent/command linting engine) against its
natural-language specification.  The definitions below are a shallow
embedding, translated from the TypeScript sources:

* linters/base.ts        : LintResult helpers, handleZodValidationIssue,
                           lintFiles, processFilesInParallel, runCustomValidation
* linters/agents.ts      : AgentsLinter.lintAgentFile, validateAdditional,
                           validateTools, checkNameMatchesFilename
* lib/schemas (final)    : BaseAgentFrontmatterSchema (strict), VALID_CLAUDE_COLORS
* lib/utils.ts           : calculateSummary, sanitizePath, PathSecurityError
* lib/config.ts          : loadConfig, loadJsConfig, validateProjectRoot,
                           the dangerous-pattern static scan

JavaScript strings are modelled by Lean String, objects parsed from YAML
front matter by ordered association lists over a small JSON-like value type,
thrown exceptions by Except, and the filesystem / dynamic-import effects by
explicit oracle records passed to the functions that use them.
-/

namespace Cclint

/-- Code-point comparison of characters, as used to model the comparator
passed to Array.prototype.sort (localeCompare is modelled as code-point
lexicographic order; which total order is used is irrelevant to the claims). -/
def charListLe : List Char → List Char → Bool
  | [], _ => true
  | _ :: _, [] => false
  | a :: as, b :: bs =>
    if a.toNat < b.toNat then true
    else if b.toNat < a.toNat then false
    else charListLe as bs

/-- Lexicographic string order used to model a.file.localeCompare(b.file) <= 0. -/
def strLe (a b : String) : Bool := charListLe a.data b.data

theorem charListLe_total : ∀ a b : List Char, charListLe a b = true ∨ charListLe b a = true
  | [], _ => Or.inl rfl
  | _ :: _, [] => Or.inr rfl
  | a :: as, b :: bs => by
    rcases charListLe_total as bs with h | h <;>
      · simp only [charListLe]
        split_ifs <;> simp_all <;> omega

theorem charListLe_trans : ∀ a b c : List Char,
    charListLe a b = true → charListLe b c = true → charListLe a c = true
  | [], _, _, _, _ => rfl
  | _ :: _, [], _, h, _ => by simp [charListLe] at h
  | _ :: _, _ :: _, [], _, h => by simp [charListLe] at h
  | a :: as, b :: bs, c :: cs, h1, h2 => by
    simp only [charListLe] at h1 h2 ⊢
    split_ifs at h1 h2 ⊢ <;>
      first
      | rfl
      | omega
      | exact charListLe_trans as bs cs h1 h2
      | simp_all
      | (exfalso; omega)

theorem charListLe_antisymm : ∀ a b : List Char,
    charListLe a b = true → charListLe b a = true → a = b
  | [], [], _, _ => rfl
  | [], _ :: _, _, h => by simp [charListLe] at h
  | _ :: _, [], h, _ => by simp [charListLe] at h
  | a :: as, b :: bs, h1, h2 => by
    simp only [charListLe] at h1 h2
    split_ifs at h1 h2 with hx hy <;> first
    | (exfalso; omega)
    | (have hnat : a.toNat = b.toNat := by omega
       have hab : a = b := by
         have hc := congrArg Char.ofNat hnat
         rwa [Char.ofNat_toNat, Char.ofNat_toNat] at hc
       have htl : as = bs := charListLe_antisymm as bs h1 h2
       rw [hab, htl])
    | simp_all

theorem strLe_total (a b : String) : strLe a b = true ∨ strLe b a = true :=
  charListLe_total a.data b.data

theorem strLe_trans {a b c : String} (h1 : strLe a b = true) (h2 : strLe b c = true) :
    strLe a c = true :=
  charListLe_trans a.data b.data c.data h1 h2

theorem strLe_antisymm {a b : String} (h1 : strLe a b = true) (h2 : strLe b a = true) :
    a = b := by
  cases a; cases b
  exact congrArg String.mk (charListLe_antisymm _ _ h1 h2)

/-! ## Kernel-computable string primitives

These model the JavaScript string operations used by the sources
(startsWith, endsWith, trim, single-character split, includes) directly on
the character lists, so that concrete witnesses evaluate inside the
kernel. -/

/-- Is p a prefix of s (on character lists)? -/
def hasPre : List Char → List Char → Bool
  | [], _ => true
  | _ :: _, [] => false
  | a :: p, b :: l => a = b && hasPre p l

/-- s.startsWith(p). -/
def strStartsWith (s p : String) : Bool := hasPre p.data s.data

/-- s.endsWith(p). -/
def strEndsWith (s p : String) : Bool := hasPre p.data.reverse s.data.reverse

/-- Does s contain p as a substring (s.includes(p))? -/
def listHasSub (p : List Char) : List Char → Bool
  | [] => hasPre p []
  | b :: l => hasPre p (b :: l) || listHasSub p l

/-- s.includes(p). -/
def strIncludes (s p : String) : Bool := listHasSub p.data s.data

/-- A JavaScript whitespace character (the ASCII ones; the inputs of
interest contain no exotic Unicode whitespace). -/
def isWsChar (c : Char) : Bool :=
  c.toNat = 32 || c.toNat = 9 || c.toNat = 10 || c.toNat = 13 || c.toNat = 12 || c.toNat = 11

/-- s.trim(). -/
def trimStr (s : String) : String :=
  String.mk (((s.data.dropWhile isWsChar).reverse.dropWhile isWsChar).reverse)

/-- s.split(c) for a single-character separator, built by structural
recursion from the right (every split call in the modelled sources uses a
single-character separator): a separator starts a new empty segment, any
other character is prepended to the current head segment. -/
def splitChar : List Char → Char → List String
  | [], _ => [""]
  | b :: l, c =>
    if b = c then "" :: splitChar l c
    else
      match splitChar l c with
      | [] => [String.mk [b]]
      | s0 :: rest => String.mk (b :: s0.data) :: rest

/-! ## LintResult (types/index.ts, shape used by linters/base.ts) -/

/-- One lint result per examined file (interface LintResult).  The optional
customSchemaErrors array is modelled by Option (undefined = none). -/
structure LintResult where
  file : String
  valid : Bool
  errors : List String
  warnings : List String
  suggestions : List String
  unusedFields : List String
  missingFields : List String
  customSchemaErrors : Option (List String) := none
deriving DecidableEq, Repr

/-- BaseLinterImpl.createResult. -/
def createResult (file : String) : LintResult :=
  { file := file
    valid := true
    errors := []
    warnings := []
    suggestions := []
    unusedFields := []
    missingFields := []
    customSchemaErrors := none }

/-- BaseLinterImpl.markInvalid. -/
def markInvalid (r : LintResult) : LintResult := { r with valid := false }

/-- BaseLinterImpl.addError: push the message and mark the result invalid. -/
def addError (r : LintResult) (message : String) : LintResult :=
  { r with errors := r.errors ++ [message], valid := false }

/-- BaseLinterImpl.addWarning. -/
def addWarning (r : LintResult) (message : String) : LintResult :=
  { r with warnings := r.warnings ++ [message] }

/-- BaseLinterImpl.addSuggestion. -/
def addSuggestion (r : LintResult) (message : String) : LintResult :=
  { r with suggestions := r.suggestions ++ [message] }

/-- BaseLinterImpl.addUnusedField (deduplicating push). -/
def addUnusedField (r : LintResult) (field : String) : LintResult :=
  if r.unusedFields.contains field then r
  else { r with unusedFields := r.unusedFields ++ [field] }

/-- BaseLinterImpl.addMissingField (deduplicating push). -/
def addMissingField (r : LintResult) (field : String) : LintResult :=
  if r.missingFields.contains field then r
  else { r with missingFields := r.missingFields ++ [field] }

/-! ## Summary aggregation (lib/utils.ts, calculateSummary) -/

/-- LintSummary (types/index.ts).  duration is Date.now() - startTime. -/
structure LintSummary where
  totalFiles : Nat
  validFiles : Nat
  totalErrors : Nat
  totalWarnings : Nat
  totalSuggestions : Nat
  duration : Int
  results : List LintResult
deriving DecidableEq, Repr

/-- The loop body of calculateSummary: one result folded into the summary.
The JavaScript guard "if (result.customSchemaErrors)" is true for any array
(even an empty one) and false for undefined, hence the Option match. -/
def summaryStep (s : LintSummary) (r : LintResult) : LintSummary :=
  { s with
    validFiles := s.validFiles + (if r.valid then 1 else 0)
    totalErrors := s.totalErrors + r.errors.length +
      (match r.customSchemaErrors with
       | some l => l.length
       | none => 0)
    totalWarnings := s.totalWarnings + r.warnings.length
    totalSuggestions := s.totalSuggestions + r.suggestions.length }

/-- calculateSummary (lib/utils.ts): initial summary then a for-of loop over
the results, modelled as a left fold of summaryStep. -/
def calculateSummary (results : List LintResult) (startTime now : Int) : LintSummary :=
  results.foldl summaryStep
    { totalFiles := results.length
      validFiles := 0
      totalErrors := 0
      totalWarnings := 0
      totalSuggestions := 0
      duration := now - startTime
      results := results }

/-- Per-result error weight: errors.length plus customSchemaErrors.length
(0 when the optional array is absent). -/
def errorWeight (r : LintResult) : Nat :=
  r.errors.length + (match r.customSchemaErrors with
                     | some l => l.length
                     | none => 0)

theorem summaryFold_validFiles (results : List LintResult) (s : LintSummary) :
    (results.foldl summaryStep s).validFiles
      = s.validFiles + (results.filter (·.valid)).length := by
  induction results generalizing s with
  | nil => simp
  | cons r rest ih =>
    by_cases h : r.valid
    · simp [List.foldl, ih, summaryStep, h, List.filter]
      omega
    · simp only [Bool.not_eq_true] at h
      simp [List.foldl, ih, summaryStep, h, List.filter]

theorem summaryFold_totalErrors (results : List LintResult) (s : LintSummary) :
    (results.foldl summaryStep s).totalErrors
      = s.totalErrors + (results.map errorWeight).sum := by
  induction results generalizing s with
  | nil => simp
  | cons r rest ih =>
    simp [List.foldl, ih, summaryStep, errorWeight]
    omega

theorem summaryFold_totalWarnings (results : List LintResult) (s : LintSummary) :
    (results.foldl summaryStep s).totalWarnings
      = s.totalWarnings + (results.map (fun r => r.warnings.length)).sum := by
  induction results generalizing s with
  | nil => simp
  | cons r rest ih =>
    simp [List.foldl, ih, summaryStep]
    omega

theorem summaryFold_totalFiles (results : List LintResult) (s : LintSummary) :
    (results.foldl summaryStep s).totalFiles = s.totalFiles := by
  induction results generalizing s with
  | nil => rfl
  | cons r rest ih => simp [List.foldl, ih, summaryStep]

theorem summaryFold_results (results : List LintResult) (s : LintSummary) :
    (results.foldl summaryStep s).results = s.results := by
  induction results generalizing s with
  | nil => rfl
  | cons r rest ih => simp [List.foldl, ih, summaryStep]

/-- C2: For every list of lint results and every start timestamp, the summary
computed by calculateSummary satisfies: totalErrors is the sum over all
results of errors.length plus customSchemaErrors.length (0 when absent);
validFiles is the number of results with valid true; totalFiles is the number
of results; and the results field is the input list unchanged. -/
theorem calculateSummary_invariants (results : List LintResult) (startTime now : Int) :
    (calculateSummary results startTime now).totalErrors
        = (results.map errorWeight).sum
    ∧ (calculateSummary results startTime now).validFiles
        = (results.filter (·.valid)).length
    ∧ (calculateSummary results startTime now).totalFiles = results.length
    ∧ (calculateSummary results startTime now).results = results := by
  unfold calculateSummary
  refine ⟨?_, ?_, ?_, ?_⟩
  · rw [summaryFold_totalErrors]; simp
  · rw [summaryFold_validFiles]; simp
  · rw [summaryFold_totalFiles]
  · rw [summaryFold_results]

/-! ## Parallel execution scheduler (linters/base.ts, lintFiles and
processFilesInParallel)

A per-file processor is a function from the file path to either a thrown
exception (modelled by Except.error with the error message) or a result
(Option, since a processor may return null for skipped files).  In parallel
mode each worker claims indices from a shared cursor, so every file is
processed exactly once; only the order in which results are pushed onto the
shared array depends on scheduling.  That order is therefore modelled as an
arbitrary permutation (the pushed list below, constrained to be a
permutation of the per-file results). -/

/-- The body of a worker loop iteration in processFilesInParallel: run the
processor for one file; a thrown exception is converted into an
error-bearing result for that file (createResult + addError). -/
def workerStep (processor : String → Except String (Option LintResult))
    (file : String) : Option LintResult :=
  match processor file with
  | .ok none => none
  | .ok (some r) => some r
  | .error e => some (addError (createResult file) ("Processing failed: " ++ e))

/-- The multiset of results produced by the worker pool, in file order; the
actual pushed order is an arbitrary permutation of this list. -/
def parallelResults (files : List String)
    (processor : String → Except String (Option LintResult)) : List LintResult :=
  files.filterMap (workerStep processor)

/-- Insertion into a sorted list, a stable realization of the comparator
sort results.sort((a, b) => a.file.localeCompare(b.file)). -/
def insertLe (le : LintResult → LintResult → Bool) (a : LintResult) :
    List LintResult → List LintResult
  | [] => [a]
  | b :: bs => if le a b then a :: b :: bs else b :: insertLe le a bs

/-- Stable sort of the results list with respect to le. -/
def sortLe (le : LintResult → LintResult → Bool) : List LintResult → List LintResult
  | [] => []
  | a :: as => insertLe le a (sortLe le as)

/-- Comparator of processFilesInParallel: order results by file path. -/
def fileLe (a b : LintResult) : Bool := strLe a.file b.file

/-- The final step of processFilesInParallel: sort the pushed results by
file path. -/
def sortByFile (rs : List LintResult) : List LintResult := sortLe fileLe rs

/-- processFilesInParallel: the workers push results in scheduling order
(the pushed argument); the returned list is the pushed list sorted by file
path. -/
def processFilesInParallel (pushed : List LintResult) : List LintResult :=
  sortByFile pushed

/-- The sequential branch of lintFiles: a for-of loop awaiting the processor
on each file in input order, pushing non-null results; a thrown exception
propagates (no try/catch in this branch). -/
def lintFilesSeq (processor : String → Except String (Option LintResult)) :
    List String → Except String (List LintResult)
  | [] => .ok []
  | f :: rest => do
    let r? ← processor f
    let rest' ← lintFilesSeq processor rest
    pure (match r? with
          | some r => r :: rest'
          | none => rest')

/-- BaseLinterImpl.lintFiles: sequential when parallel is disabled or there
is at most one file, otherwise the worker pool (whose push order is the
pushed argument; the concurrency bound affects only scheduling and is
therefore absorbed by the permutation quantification in the theorems). -/
def lintFiles (files : List String)
    (processor : String → Except String (Option LintResult))
    (parallel : Bool) (pushed : List LintResult) : Except String (List LintResult) :=
  if !parallel || files.length ≤ 1 then lintFilesSeq processor files
  else .ok (processFilesInParallel pushed)

theorem insertLe_perm (le : LintResult → LintResult → Bool) (a : LintResult) :
    ∀ l : List LintResult, (insertLe le a l).Perm (a :: l)
  | [] => List.Perm.refl _
  | b :: bs => by
    unfold insertLe
    split
    · exact List.Perm.refl _
    · exact ((insertLe_perm le a bs).cons b).trans (List.Perm.swap a b bs)

theorem sortLe_perm (le : LintResult → LintResult → Bool) :
    ∀ l : List LintResult, (sortLe le l).Perm l
  | [] => List.Perm.refl _
  | a :: as =>
    (insertLe_perm le a (sortLe le as)).trans ((sortLe_perm le as).cons a)

/-- The ordering relation induced by the comparator. -/
def fileRel (a b : LintResult) : Prop := fileLe a b = true

theorem fileRel_total (a b : LintResult) : fileRel a b ∨ fileRel b a :=
  strLe_total a.file b.file

theorem fileRel_trans {a b c : LintResult} (h1 : fileRel a b) (h2 : fileRel b c) :
    fileRel a c :=
  strLe_trans h1 h2

theorem insertLe_sorted (a : LintResult) :
    ∀ l : List LintResult, List.Sorted fileRel l →
      List.Sorted fileRel (insertLe fileLe a l)
  | [], _ => List.sorted_singleton a
  | b :: bs, h => by
    unfold insertLe
    rcases List.sorted_cons.mp h with ⟨hb, hbs⟩
    split
    · rename_i hab
      refine List.sorted_cons.mpr ⟨?_, h⟩
      intro x hx
      rcases List.mem_cons.mp hx with hxb | hxbs
      · rw [hxb]; exact hab
      · exact fileRel_trans hab (hb x hxbs)
    · rename_i hab
      have hba : fileRel b a := by
        rcases fileRel_total a b with hh | hh
        · exact absurd hh hab
        · exact hh
      refine List.sorted_cons.mpr ⟨?_, insertLe_sorted a bs hbs⟩
      intro x hx
      have hx' : x ∈ a :: bs := (insertLe_perm fileLe a bs).mem_iff.mp hx
      rcases List.mem_cons.mp hx' with hxa | hxbs
      · rw [hxa]; exact hba
      · exact hb x hxbs

theorem sortByFile_sorted : ∀ rs : List LintResult, List.Sorted fileRel (sortByFile rs)
  | [] => List.sorted_nil
  | a :: as => insertLe_sorted a (sortLe fileLe as) (sortByFile_sorted as)

theorem sortByFile_perm (rs : List LintResult) : (sortByFile rs).Perm rs :=
  sortLe_perm fileLe rs

/-- C3: In parallel mode, for every file list and any completion order of
the workers (hence any concurrency), the final result list is sorted by file
path and is a permutation of the per-file results; and every file whose
processor call throws contributes an error-bearing result (valid false, an
error naming the failure) instead of failing the pool. -/
theorem processFilesInParallel_spec (files : List String)
    (processor : String → Except String (Option LintResult))
    (pushed : List LintResult)
    (hperm : pushed.Perm (parallelResults files processor)) :
    List.Sorted fileRel (processFilesInParallel pushed)
    ∧ (processFilesInParallel pushed).Perm (parallelResults files processor)
    ∧ ∀ f e, f ∈ files → processor f = .error e →
        addError (createResult f) ("Processing failed: " ++ e)
          ∈ processFilesInParallel pushed := by
  refine ⟨sortByFile_sorted pushed, (sortByFile_perm pushed).trans hperm, ?_⟩
  intro f e hf he
  have hmem : addError (createResult f) ("Processing failed: " ++ e)
      ∈ parallelResults files processor := by
    refine List.mem_filterMap.mpr ⟨f, hf, ?_⟩
    simp [workerStep, he]
  exact ((sortByFile_perm pushed).trans hperm).mem_iff.mpr hmem

/-- Witness for C3 at a concrete two-file input where the processor throws
on one file. -/
theorem processFilesInParallel_spec_witness :
    (parallelResults ["b", "a"]
        (fun f => if f = "a" then .error "boom" else .ok (some (createResult f)))).Perm
      (parallelResults ["b", "a"]
        (fun f => if f = "a" then .error "boom" else .ok (some (createResult f))))
    ∧ (List.Sorted fileRel (processFilesInParallel
          (parallelResults ["b", "a"]
            (fun f => if f = "a" then .error "boom" else .ok (some (createResult f)))))
       ∧ (processFilesInParallel
            (parallelResults ["b", "a"]
              (fun f => if f = "a" then .error "boom" else .ok (some (createResult f))))).Perm
          (parallelResults ["b", "a"]
            (fun f => if f = "a" then .error "boom" else .ok (some (createResult f))))
       ∧ ∀ f e, f ∈ ["b", "a"] →
           (fun f => if f = "a" then .error "boom" else .ok (some (createResult f))) f
              = Except.error e →
           addError (createResult f) ("Processing failed: " ++ e)
             ∈ processFilesInParallel
                 (parallelResults ["b", "a"]
                   (fun f => if f = "a" then .error "boom" else .ok (some (createResult f))))) :=
  ⟨List.Perm.refl _,
   processFilesInParallel_spec ["b", "a"]
     (fun f => if f = "a" then .error "boom" else .ok (some (createResult f)))
     _ (List.Perm.refl _)⟩

/-- The value a non-throwing processor call contributes in the sequential
branch (null results are skipped). -/
def seqStep (processor : String → Except String (Option LintResult))
    (file : String) : Option LintResult :=
  match processor file with
  | .ok r? => r?
  | .error _ => none

theorem lintFilesSeq_ok (processor : String → Except String (Option LintResult)) :
    ∀ files : List String, (∀ f ∈ files, ∃ v, processor f = .ok v) →
      lintFilesSeq processor files = .ok (files.filterMap (seqStep processor))
  | [], _ => rfl
  | f :: rest, h => by
    obtain ⟨v, hv⟩ := h f (List.mem_cons_self f rest)
    have hrest := lintFilesSeq_ok processor rest (fun g hg => h g (List.mem_cons_of_mem f hg))
    cases v with
    | none =>
      simp [lintFilesSeq, hv, hrest, List.filterMap_cons, seqStep, Bind.bind, Except.bind,
            pure, Except.pure]
    | some r =>
      simp [lintFilesSeq, hv, hrest, List.filterMap_cons, seqStep, Bind.bind, Except.bind,
            pure, Except.pure]

theorem lintFilesSeq_error (processor : String → Except String (Option LintResult))
    (f : String) (e : String) (he : processor f = .error e) :
    ∀ pre post : List String, (∀ g ∈ pre, ∃ v, processor g = .ok v) →
      lintFilesSeq processor (pre ++ f :: post) = .error e
  | [], post, _ => by simp [lintFilesSeq, he, Bind.bind, Except.bind]
  | g :: pre, post, h => by
    obtain ⟨v, hv⟩ := h g (List.mem_cons_self g pre)
    have hrest := lintFilesSeq_error processor f e he pre post
      (fun x hx => h x (List.mem_cons_of_mem g hx))
    simp only [List.cons_append, lintFilesSeq, hv, Bind.bind, Except.bind]
    rw [show (pre.append (f :: post)) = pre ++ f :: post from rfl, hrest]

/-- C10: the sequential branch of lintFiles (parallel false, or at most one
file) returns results in input order with no sort, and a processor
exception propagates out of lintFiles, producing no results for the
remaining files; in parallel mode (more than one file) the call instead
returns the sorted pushed list without propagating anything. -/
theorem lintFiles_sequential_spec (files : List String)
    (processor : String → Except String (Option LintResult))
    (pushed : List LintResult) :
    (lintFiles files processor false pushed = lintFilesSeq processor files)
    ∧ ((∀ f ∈ files, ∃ v, processor f = .ok v) →
        lintFiles files processor false pushed
          = .ok (files.filterMap (seqStep processor)))
    ∧ (∀ pre f post e, files = pre ++ f :: post →
        (∀ g ∈ pre, ∃ v, processor g = .ok v) →
        processor f = .error e →
        lintFiles files processor false pushed = .error e)
    ∧ (1 < files.length →
        lintFiles files processor true pushed = .ok (sortByFile pushed)) := by
  have hseq : lintFiles files processor false pushed = lintFilesSeq processor files := by
    simp [lintFiles]
  refine ⟨hseq, ?_, ?_, ?_⟩
  · intro h
    rw [hseq]
    exact lintFilesSeq_ok processor files h
  · intro pre f post e hsplit hpre he
    rw [hseq, hsplit]
    exact lintFilesSeq_error processor f e he pre post hpre
  · intro hlen
    have h2 : ¬(files.length ≤ 1) := by omega
    simp [lintFiles, h2, processFilesInParallel]

/-- Witness for C10 at a concrete input: two files, the processor throws on
the second. -/
theorem lintFiles_sequential_spec_witness :
    (lintFiles ["a", "b"]
        (fun f => if f = "b" then .error "boom" else .ok (some (createResult f)))
        false [] = lintFilesSeq
          (fun f => if f = "b" then .error "boom" else .ok (some (createResult f)))
          ["a", "b"])
    ∧ ((∀ f ∈ ["a", "b"], ∃ v,
          (fun f => if f = "b" then .error "boom" else .ok (some (createResult f))) f
            = Except.ok v) →
        lintFiles ["a", "b"]
          (fun f => if f = "b" then .error "boom" else .ok (some (createResult f)))
          false []
          = .ok (["a", "b"].filterMap (seqStep
              (fun f => if f = "b" then .error "boom" else .ok (some (createResult f))))))
    ∧ (∀ pre f post e, ["a", "b"] = pre ++ f :: post →
        (∀ g ∈ pre, ∃ v,
          (fun f => if f = "b" then .error "boom" else .ok (some (createResult f))) g
            = Except.ok v) →
        (fun f => if f = "b" then .error "boom" else .ok (some (createResult f))) f
          = Except.error e →
        lintFiles ["a", "b"]
          (fun f => if f = "b" then .error "boom" else .ok (some (createResult f)))
          false [] = .error e)
    ∧ (1 < (["a", "b"] : List String).length →
        lintFiles ["a", "b"]
          (fun f => if f = "b" then .error "boom" else .ok (some (createResult f)))
          true [] = .ok (sortByFile [])) :=
  lintFiles_sequential_spec ["a", "b"]
    (fun f => if f = "b" then .error "boom" else .ok (some (createResult f))) []

theorem lintFilesSeq_eq_parallelResults
    (processor : String → Except String (Option LintResult)) :
    ∀ files rs, lintFilesSeq processor files = .ok rs →
      rs = parallelResults files processor
  | [], rs, h => by
    simp [lintFilesSeq] at h
    simp [parallelResults, ← h]
  | f :: rest, rs, h => by
    simp only [lintFilesSeq] at h
    cases hf : processor f with
    | error e => rw [hf] at h; exact absurd h (by simp [Bind.bind, Except.bind])
    | ok r? =>
      rw [hf] at h
      cases hrest : lintFilesSeq processor rest with
      | error e => rw [hrest] at h; exact absurd h (by simp [Bind.bind, Except.bind])
      | ok rest' =>
        rw [hrest] at h
        have hrest' := lintFilesSeq_eq_parallelResults processor rest rest' hrest
        simp only [Bind.bind, Except.bind, pure, Except.pure, Except.ok.injEq] at h
        cases r? with
        | none =>
          simp only [parallelResults, List.filterMap_cons, workerStep, hf]
          rw [← h, hrest']
          rfl
        | some r =>
          simp only [parallelResults, List.filterMap_cons, workerStep, hf]
          rw [← h, hrest']
          rfl

/-- C8: for every fixed file list and per-file processor, whenever the
sequential run produces a summary at all, the totals totalFiles,
totalErrors and totalWarnings computed from the parallel run (any
concurrency, any worker completion order) equal the sequential ones. -/
theorem lintFiles_parallel_sequential_equiv (files : List String)
    (processor : String → Except String (Option LintResult))
    (pushed rs : List LintResult) (t1 n1 t2 n2 : Int)
    (hseq : lintFilesSeq processor files = .ok rs)
    (hperm : pushed.Perm (parallelResults files processor)) :
    (calculateSummary (processFilesInParallel pushed) t1 n1).totalFiles
        = (calculateSummary rs t2 n2).totalFiles
    ∧ (calculateSummary (processFilesInParallel pushed) t1 n1).totalErrors
        = (calculateSummary rs t2 n2).totalErrors
    ∧ (calculateSummary (processFilesInParallel pushed) t1 n1).totalWarnings
        = (calculateSummary rs t2 n2).totalWarnings := by
  have hrs : rs = parallelResults files processor :=
    lintFilesSeq_eq_parallelResults processor files rs hseq
  have hp : (processFilesInParallel pushed).Perm rs := by
    rw [hrs]
    exact (sortByFile_perm pushed).trans hperm
  obtain ⟨he1, hv1, hf1, -⟩ := calculateSummary_invariants (processFilesInParallel pushed) t1 n1
  obtain ⟨he2, hv2, hf2, -⟩ := calculateSummary_invariants rs t2 n2
  have hw1 := summaryFold_totalWarnings (processFilesInParallel pushed)
    { totalFiles := (processFilesInParallel pushed).length, validFiles := 0, totalErrors := 0,
      totalWarnings := 0, totalSuggestions := 0, duration := n1 - t1,
      results := processFilesInParallel pushed }
  have hw2 := summaryFold_totalWarnings rs
    { totalFiles := rs.length, validFiles := 0, totalErrors := 0,
      totalWarnings := 0, totalSuggestions := 0, duration := n2 - t2, results := rs }
  refine ⟨?_, ?_, ?_⟩
  · rw [hf1, hf2]
    exact hp.length_eq
  · rw [he1, he2]
    exact (hp.map errorWeight).sum_eq
  · show (calculateSummary (processFilesInParallel pushed) t1 n1).totalWarnings
        = (calculateSummary rs t2 n2).totalWarnings
    unfold calculateSummary
    rw [hw1, hw2]
    simpa using (hp.map (fun r => r.warnings.length)).sum_eq

/-- Witness for C8 at a concrete input: two ordinary files processed with a
null-free processor, parallel push order reversed. -/
theorem lintFiles_parallel_sequential_equiv_witness :
    (lintFilesSeq (fun f => .ok (some (addWarning (createResult f) "w"))) ["a", "b"]
        = .ok [addWarning (createResult "a") "w", addWarning (createResult "b") "w"])
    ∧ ([addWarning (createResult "b") "w", addWarning (createResult "a") "w"].Perm
        (parallelResults ["a", "b"] (fun f => .ok (some (addWarning (createResult f) "w")))))
    ∧ ((calculateSummary (processFilesInParallel
          [addWarning (createResult "b") "w", addWarning (createResult "a") "w"]) 0 5).totalFiles
        = (calculateSummary
            [addWarning (createResult "a") "w", addWarning (createResult "b") "w"] 0 7).totalFiles
      ∧ (calculateSummary (processFilesInParallel
          [addWarning (createResult "b") "w", addWarning (createResult "a") "w"]) 0 5).totalErrors
        = (calculateSummary
            [addWarning (createResult "a") "w", addWarning (createResult "b") "w"] 0 7).totalErrors
      ∧ (calculateSummary (processFilesInParallel
          [addWarning (createResult "b") "w", addWarning (createResult "a") "w"]) 0 5).totalWarnings
        = (calculateSummary
            [addWarning (createResult "a") "w", addWarning (createResult "b") "w"] 0 7).totalWarnings) :=
  ⟨by rfl, by decide,
   lintFiles_parallel_sequential_equiv ["a", "b"]
     (fun f => .ok (some (addWarning (createResult f) "w")))
     [addWarning (createResult "b") "w", addWarning (createResult "a") "w"]
     [addWarning (createResult "a") "w", addWarning (createResult "b") "w"]
     0 5 0 7 (by rfl) (by decide)⟩

/-! ## Custom validation hook (linters/base.ts, runCustomValidation) -/

/-- The list held by the optional customSchemaErrors array: the JavaScript
code materializes an empty array on first use, so the undefined case reads
as the empty list. -/
def customList (r : LintResult) : List String :=
  match r.customSchemaErrors with
  | some l => l
  | none => []

/-- The push of one custom error onto the optional customSchemaErrors array
which is created on first use. -/
def pushCustomError (r : LintResult) (e : String) : LintResult :=
  { r with customSchemaErrors := some (customList r ++ [e]) }

/-- BaseLinterImpl.runCustomValidation: the hook is a partial function of
the parsed data; a thrown exception is modelled by Except.error carrying the
error message.  The try/catch makes this function total: exceptions are
converted into an error finding instead of propagating. -/
def runCustomValidation {α : Type} (data : α) (r : LintResult)
    (customValidation : Option (α → Except String (List String))) : LintResult :=
  match customValidation with
  | none => r
  | some f =>
    match f data with
    | .ok customErrors =>
      customErrors.foldl
        (fun acc e => addError (pushCustomError acc e) ("Custom validation: " ++ e)) r
    | .error msg => addError r ("Custom validation failed: " ++ msg)

theorem runCustomValidation_fold (errs : List String) :
    ∀ r : LintResult,
      (errs.foldl
        (fun acc e => addError (pushCustomError acc e) ("Custom validation: " ++ e)) r)
      = { r with
          customSchemaErrors :=
            (if errs.isEmpty then r.customSchemaErrors
             else some (customList r ++ errs))
          errors := r.errors ++ errs.map (fun e => "Custom validation: " ++ e)
          valid := r.valid && errs.isEmpty } := by
  induction errs with
  | nil => intro r; simp
  | cons e rest ih =>
    intro r
    rw [List.foldl_cons, ih]
    cases rest <;>
      simp [addError, pushCustomError, customList, List.isEmpty]

/-- C9: every error string returned by the custom-validation hook is
appended to customSchemaErrors and mirrored into errors with the prefix
"Custom validation: ", invalidating the result when at least one error is
returned; and a hook that throws is caught and converted into a single
"Custom validation failed: ..." error finding on the result (the function is
total, so nothing ever propagates out of the linter). -/
theorem runCustomValidation_spec {α : Type} (data : α) (r : LintResult)
    (f : α → Except String (List String)) :
    (∀ errs, f data = .ok errs →
      runCustomValidation data r (some f)
        = { r with
            customSchemaErrors :=
              (if errs.isEmpty then r.customSchemaErrors
               else some (customList r ++ errs))
            errors := r.errors ++ errs.map (fun e => "Custom validation: " ++ e)
            valid := r.valid && errs.isEmpty })
    ∧ (∀ msg, f data = .error msg →
      runCustomValidation data r (some f)
        = { r with
            errors := r.errors ++ ["Custom validation failed: " ++ msg]
            valid := false })
    ∧ runCustomValidation data r none = r := by
  refine ⟨?_, ?_, rfl⟩
  · intro errs herrs
    simp only [runCustomValidation, herrs]
    rw [runCustomValidation_fold]
  · intro msg hmsg
    simp only [runCustomValidation, hmsg]
    simp [addError]

/-- Witness for C9 at a concrete input: a hook returning two errors on a
fresh result. -/
theorem runCustomValidation_spec_witness :
    ((fun _ : Nat => (Except.ok ["e1", "e2"] : Except String (List String))) 0 = Except.ok ["e1", "e2"]
      → runCustomValidation 0 (createResult "f.md")
          (some (fun _ : Nat => (Except.ok ["e1", "e2"] : Except String (List String))))
        = { createResult "f.md" with
            customSchemaErrors := some ["e1", "e2"]
            errors := ["Custom validation: e1", "Custom validation: e2"]
            valid := false })
    ∧ runCustomValidation 0 (createResult "f.md")
        (some (fun _ : Nat => (Except.ok ["e1", "e2"] : Except String (List String))))
      = { createResult "f.md" with
          customSchemaErrors := some ["e1", "e2"]
          errors := ["Custom validation: e1", "Custom validation: e2"]
          valid := false } := by
  have h := (runCustomValidation_spec 0 (createResult "f.md")
    (fun _ : Nat => (Except.ok ["e1", "e2"] : Except String (List String)))).1 ["e1", "e2"] rfl
  refine ⟨fun _ => ?_, ?_⟩ <;>
    · rw [h]
      decide

/-! ## Front-matter values and the composed agent schema

The agent base schema is taken from the final schema definition
(BaseAgentFrontmatterSchema with VALID_CLAUDE_COLORS in src/commands/lint.ts,
the design the spec declares authoritative).  Parsed YAML front matter is an
ordered association list of keys to JSON-like values; undefined is the
absence of a key, null the explicit null value.  safeParse is modelled as
the list of issues it reports (empty list = success), with issues generated
in Zod order: shape fields in declaration order, then the strict-mode
unrecognized-keys issue. -/

/-- A JSON-like front-matter value (string / number / boolean / array /
null). -/
inductive JVal where
  | str (s : String)
  | num (n : Int)
  | bool (b : Bool)
  | arr (xs : List JVal)
  | nullv
deriving Repr

mutual

def JVal.decEq : (a b : JVal) → Decidable (a = b)
  | .str a, .str b =>
    if h : a = b then .isTrue (congrArg JVal.str h)
    else .isFalse (fun hh => h (JVal.str.inj hh))
  | .num a, .num b =>
    if h : a = b then .isTrue (congrArg JVal.num h)
    else .isFalse (fun hh => h (JVal.num.inj hh))
  | .bool a, .bool b =>
    if h : a = b then .isTrue (congrArg JVal.bool h)
    else .isFalse (fun hh => h (JVal.bool.inj hh))
  | .nullv, .nullv => .isTrue rfl
  | .arr xs, .arr ys =>
    match JVal.decEqList xs ys with
    | .isTrue h => .isTrue (congrArg JVal.arr h)
    | .isFalse h => .isFalse (fun hh => h (JVal.arr.inj hh))
  | .str _, .num _ => .isFalse (by intro h; exact JVal.noConfusion h)
  | .str _, .bool _ => .isFalse (by intro h; exact JVal.noConfusion h)
  | .str _, .arr _ => .isFalse (by intro h; exact JVal.noConfusion h)
  | .str _, .nullv => .isFalse (by intro h; exact JVal.noConfusion h)
  | .num _, .str _ => .isFalse (by intro h; exact JVal.noConfusion h)
  | .num _, .bool _ => .isFalse (by intro h; exact JVal.noConfusion h)
  | .num _, .arr _ => .isFalse (by intro h; exact JVal.noConfusion h)
  | .num _, .nullv => .isFalse (by intro h; exact JVal.noConfusion h)
  | .bool _, .str _ => .isFalse (by intro h; exact JVal.noConfusion h)
  | .bool _, .num _ => .isFalse (by intro h; exact JVal.noConfusion h)
  | .bool _, .arr _ => .isFalse (by intro h; exact JVal.noConfusion h)
  | .bool _, .nullv => .isFalse (by intro h; exact JVal.noConfusion h)
  | .arr _, .str _ => .isFalse (by intro h; exact JVal.noConfusion h)
  | .arr _, .num _ => .isFalse (by intro h; exact JVal.noConfusion h)
  | .arr _, .bool _ => .isFalse (by intro h; exact JVal.noConfusion h)
  | .arr _, .nullv => .isFalse (by intro h; exact JVal.noConfusion h)
  | .nullv, .str _ => .isFalse (by intro h; exact JVal.noConfusion h)
  | .nullv, .num _ => .isFalse (by intro h; exact JVal.noConfusion h)
  | .nullv, .bool _ => .isFalse (by intro h; exact JVal.noConfusion h)
  | .nullv, .arr _ => .isFalse (by intro h; exact JVal.noConfusion h)

def JVal.decEqList : (xs ys : List JVal) → Decidable (xs = ys)
  | [], [] => .isTrue rfl
  | [], _ :: _ => .isFalse (by intro h; exact List.noConfusion h)
  | _ :: _, [] => .isFalse (by intro h; exact List.noConfusion h)
  | x :: xs, y :: ys =>
    match JVal.decEq x y with
    | .isFalse h1 => .isFalse (fun hh => h1 (List.head_eq_of_cons_eq hh))
    | .isTrue h1 =>
      match JVal.decEqList xs ys with
      | .isTrue h2 => .isTrue (by rw [h1, h2])
      | .isFalse h2 => .isFalse (fun hh => h2 (List.tail_eq_of_cons_eq hh))

end

instance : DecidableEq JVal := JVal.decEq

/-- The JavaScript typeof-like name Zod reports in invalid_type issues. -/
def typeName : JVal → String
  | .str _ => "string"
  | .num _ => "number"
  | .bool _ => "boolean"
  | .arr _ => "array"
  | .nullv => "null"

/-- Key lookup in parsed front matter (undefined = none). -/
def lookupJ (fm : List (String × JVal)) (k : String) : Option JVal :=
  match fm with
  | [] => none
  | (k2, v) :: rest => if k2 = k then some v else lookupJ rest k

/-- An apostrophe, built by code point so the character never appears
verbatim in this file. -/
def apos : String := String.singleton (Char.ofNat 39)

/-- A Zod issue as consumed by handleZodValidationIssue: its code, path,
message, the received type name (invalid_type only) and the offending keys
(unrecognized_keys only). -/
structure ZIssue where
  code : String
  path : List String
  message : String
  received : String := ""
  keys : List String := []
deriving DecidableEq, Repr

/-- Zod issue for a missing required field. -/
def requiredIssue (k : String) : ZIssue :=
  { code := "invalid_type", path := [k], message := "Required", received := "undefined" }

/-- Zod issue for a present field of the wrong type. -/
def invalidTypeIssue (k expected : String) (v : JVal) : ZIssue :=
  { code := "invalid_type", path := [k]
    message := "Expected " ++ expected ++ ", received " ++ typeName v
    received := typeName v }

/-- Zod issue for a string below the minimum length, with the custom message
configured in the schema. -/
def tooSmallIssue (k msg : String) : ZIssue :=
  { code := "too_small", path := [k], message := msg }

/-- Zod issue for a string failing the configured regex. -/
def invalidStringIssue (k msg : String) : ZIssue :=
  { code := "invalid_string", path := [k], message := msg }

/-- Zod issue for a failing refine, with the message the refinement
produces. -/
def customIssue (k msg : String) : ZIssue :=
  { code := "custom", path := [k], message := msg }

/-- Zod issue for a value matching no branch of a union. -/
def unionIssue (k : String) : ZIssue :=
  { code := "invalid_union", path := [k], message := "Invalid input" }

/-- Zod issue for an invalid enum value. -/
def enumIssue (k received : String) (expected : List String) : ZIssue :=
  { code := "invalid_enum_value", path := [k]
    message := "Invalid enum value. Expected "
      ++ String.intercalate " | " (expected.map (fun v => apos ++ v ++ apos))
      ++ ", received " ++ apos ++ received ++ apos }

/-- Zod issue for unrecognized keys under .strict(). -/
def unrecognizedIssue (ks : List String) : ZIssue :=
  { code := "unrecognized_keys", path := []
    message := "Unrecognized key(s) in object: "
      ++ String.intercalate ", " (ks.map (fun k => apos ++ k ++ apos))
    keys := ks }

/-- One character of the name regex character class [a-z0-9-]. -/
def validNameChar (c : Char) : Bool :=
  (97 ≤ c.toNat && c.toNat ≤ 122) || (48 ≤ c.toNat && c.toNat ≤ 57) || c.toNat = 45

/-- The anchored name regex of the base schema. -/
def nameRegexOk (s : String) : Bool :=
  s ≠ "" && s.data.all validNameChar

/-- name: z.string().min(1, ...).regex(...). -/
def checkName (fm : List (String × JVal)) : List ZIssue :=
  match lookupJ fm "name" with
  | none => [requiredIssue "name"]
  | some (.str s) =>
    (if s.length < 1 then [tooSmallIssue "name" "name is required"] else [])
      ++ (if nameRegexOk s then []
          else [invalidStringIssue "name"
            "name must use only lowercase letters, numbers, and hyphens"])
  | some v => [invalidTypeIssue "name" "string" v]

/-- description: z.string().min(1, ...). -/
def checkDescription (fm : List (String × JVal)) : List ZIssue :=
  match lookupJ fm "description" with
  | none => [requiredIssue "description"]
  | some (.str s) =>
    (if s.length < 1 then [tooSmallIssue "description" "description is required"] else [])
  | some v => [invalidTypeIssue "description" "string" v]

/-- Is the value a string? -/
def isStrVal : JVal → Bool
  | .str _ => true
  | _ => false

/-- tools and allowed-tools: z.union([z.string(), z.array(z.string())]).optional(). -/
def checkToolsUnion (fm : List (String × JVal)) (k : String) : List ZIssue :=
  match lookupJ fm k with
  | none => []
  | some v =>
    if isStrVal v || (match v with
                      | .arr xs => xs.all isStrVal
                      | _ => false) then []
    else [unionIssue k]

/-- The model enum of the final schema. -/
def modelValues : List String :=
  ["sonnet", "opus", "haiku", "sonnet[1m]", "opusplan", "inherit"]

/-- model: z.enum([...]).optional(). -/
def checkModel (fm : List (String × JVal)) : List ZIssue :=
  match lookupJ fm "model" with
  | none => []
  | some (.str s) =>
    if modelValues.contains s then [] else [enumIssue "model" s modelValues]
  | some v => [invalidTypeIssue "model" "string" v]

/-- VALID_CLAUDE_COLORS, in Set insertion order. -/
def validClaudeColors : List String :=
  ["red", "blue", "green", "yellow", "purple", "orange", "pink", "cyan"]

/-- value.toLowerCase() on one character (the inputs of interest are
ASCII; the allowlist entries are ASCII). -/
def charToLower (c : Char) : Char :=
  if 65 ≤ c.toNat ∧ c.toNat ≤ 90 then Char.ofNat (c.toNat + 32) else c

/-- value.toLowerCase(). -/
def toLowerStr (s : String) : String := String.mk (s.data.map charToLower)

/-- The refinement body of the color field:
if (!value) return true; return VALID_CLAUDE_COLORS.has(value.toLowerCase()).
The only falsy string is the empty one. -/
def colorRefineOk (s : String) : Bool :=
  s = "" || validClaudeColors.contains (toLowerStr s)

/-- The message the color refinement produces. -/
def colorMessage (s : String) : String :=
  "Color \"" ++ s
    ++ "\" is not a valid Claude Code color. Valid colors are: red, blue, green, yellow, purple, orange, pink, cyan"

/-- color: z.string().optional().refine(...). -/
def checkColor (fm : List (String × JVal)) : List ZIssue :=
  match lookupJ fm "color" with
  | none => []
  | some (.str s) =>
    if colorRefineOk s then [] else [customIssue "color" (colorMessage s)]
  | some v => [invalidTypeIssue "color" "string" v]

/-- The declared shape keys of BaseAgentFrontmatterSchema, in declaration
order. -/
def agentShapeKeys : List String :=
  ["name", "description", "tools", "allowed-tools", "model", "color"]

/-- The input keys not declared by the shape, in input order. -/
def extraKeys (fm : List (String × JVal)) : List String :=
  (fm.map Prod.fst).filter (fun k => !agentShapeKeys.contains k)

/-- safeParse of the composed agent schema (getAgentSchema with no extend
and no override): the base shape field issues in declaration order, then,
when strict (config.rules.strict !== false, the default) and extra keys
exist, one unrecognized_keys issue listing them.  An empty issue list means
validation.success. -/
def safeParseAgent (strict : Bool) (fm : List (String × JVal)) : List ZIssue :=
  checkName fm ++ checkDescription fm
    ++ checkToolsUnion fm "tools" ++ checkToolsUnion fm "allowed-tools"
    ++ checkModel fm ++ checkColor fm
    ++ (if strict && !(extraKeys fm).isEmpty then [unrecognizedIssue (extraKeys fm)] else [])

/-! ## handleZodValidationIssue (linters/base.ts) and the agents linter
(linters/agents.ts, AgentsLinter)

The four callbacks are passed explicitly, as in the source.  Since the
agents linter mutates one result object and JavaScript exceptions abort the
loop while keeping mutations already applied, processing runs in
Except (String x LintResult): an error carries both the message of the
thrown exception and the result state at the throw. -/

/-- handleZodValidationIssue: dispatch one Zod issue to the callbacks. -/
def handleZodValidationIssue (issue : ZIssue) (result : LintResult)
    (addErrorF addWarningF addMissingFieldF addUnusedFieldF :
      LintResult → String → Except (String × LintResult) LintResult) :
    Except (String × LintResult) LintResult :=
  let field := String.intercalate "." issue.path
  if issue.code = "invalid_type" then
    if issue.received = "undefined" then
      match addMissingFieldF result field with
      | .error e => .error e
      | .ok r => addErrorF r ("Missing required field: " ++ field)
    else addErrorF result (field ++ ": " ++ issue.message)
  else if issue.code = "unrecognized_keys" then
    issue.keys.foldlM
      (fun r key =>
        match addUnusedFieldF r key with
        | .error e => .error e
        | .ok r2 => addWarningF r2 ("Unrecognized field: " ++ key))
      result
  else addErrorF result (field ++ ": " ++ issue.message)

/-- The bound this.addError callback. -/
def addErrorCb : LintResult → String → Except (String × LintResult) LintResult :=
  fun r m => .ok (addError r m)

/-- The bound this.addWarning callback. -/
def addWarningCb : LintResult → String → Except (String × LintResult) LintResult :=
  fun r m => .ok (addWarning r m)

/-- The bound this.addMissingField callback. -/
def addMissingFieldCb : LintResult → String → Except (String × LintResult) LintResult :=
  fun r m => .ok (addMissingField r m)

/-- The sixth parameter of handleZodValidationIssue at the call site in
AgentsLinter.lintAgentFile, which passes only five arguments: the parameter
is undefined, and invoking it throws a TypeError (carrying the result state
at the throw). -/
def undefinedUnusedFieldCb : LintResult → String → Except (String × LintResult) LintResult :=
  fun r _ => .error ("TypeError: addUnusedField is not a function", r)

/-- Project configuration as far as the agents linter consumes it:
config.rules.strict and config.agentSchema.customValidation (schema
extensions and overrides are not used in any scenario below, so the
modelled configurations carry none). -/
structure CclintConfig where
  strictRule : Option Bool := none
  agentCustomValidation : Option (List (String × JVal) → Except String (List String)) := none

/-- getAgentSchema strictness: config?.rules?.strict !== false. -/
def isStrict (config : Option CclintConfig) : Bool :=
  match config with
  | none => true
  | some c => c.strictRule ≠ some false

/-- KNOWN_CLAUDE_TOOLS (lib/schemas.ts). -/
def KNOWN_CLAUDE_TOOLS : List String :=
  ["Read", "Write", "Edit", "MultiEdit", "Bash", "Grep", "Glob", "LS", "Task",
   "NotebookEdit", "WebFetch", "WebSearch", "TodoWrite", "BashOutput", "KillBash",
   "ExitPlanMode"]

/-- Number of occurrences of a character in a string, modelling
(tool.match(/x/g) || []).length. -/
def countChar (s : String) (c : Char) : Nat :=
  (s.data.filter (fun d => d = c)).length

/-- The tools.split(",").map(trim).filter(nonempty) parse of a
comma-separated tool list. -/
def splitTools (s : String) : List String :=
  ((splitChar s.data (Char.ofNat 44)).map trimStr).filter (fun t => t ≠ "")

/-- The body of the per-tool loop of AgentsLinter.validateTools: unknown
base-tool warning (tolerating the mcp__ prefix), then parenthesis-balance
warning. -/
def toolStep (result : LintResult) (tool : String) : LintResult :=
  let baseTool := trimStr (((splitChar tool.data (Char.ofNat 40)).head?).getD "")
  let r1 :=
    if baseTool ≠ "" && !KNOWN_CLAUDE_TOOLS.contains baseTool && baseTool ≠ "*"
        && !strStartsWith baseTool "mcp__" then
      addWarning result ("Unknown tool: " ++ baseTool)
    else result
  if countChar tool (Char.ofNat 40) ≠ countChar tool (Char.ofNat 41) then
    addWarning r1 ("Unmatched parentheses in tool specification: " ++ tool)
  else r1

/-- The shared tail of validateTools once a tool list has been obtained. -/
def toolListCheck (toolList : List String) (result : LintResult) : LintResult :=
  if toolList.isEmpty then
    addWarning result "Empty tools field detected - this will grant NO tools"
  else toolList.foldl toolStep result

/-- AgentsLinter.validateTools (agents linter, final version). -/
def validateTools (tools : JVal) (result : LintResult) (fieldName : String) : LintResult :=
  if tools = JVal.nullv ∨ tools = JVal.str "" ∨ tools = JVal.arr [] then
    addWarning result ("Empty " ++ fieldName
      ++ " field - this will grant NO tools. Remove the field entirely to inherit all tools, or specify tools explicitly")
  else
    match tools with
    | .str s =>
      if s = "*" then result
      else toolListCheck (splitTools s) result
    | .arr xs =>
      if !xs.all isStrVal then
        addError result (fieldName ++ " array must contain only strings")
      else toolListCheck (xs.filterMap (fun v => match v with
                                                 | .str t => some t
                                                 | _ => none)) result
    | _ => addError result (fieldName ++ " field must be a string, array, or \"*\"")

/-- JavaScript truthiness of a possibly-absent front-matter value. -/
def jsTruthy : Option JVal → Bool
  | none => false
  | some .nullv => false
  | some (.str s) => s ≠ ""
  | some (.num n) => n ≠ 0
  | some (.bool b) => b
  | some (.arr _) => true

/-- path.basename(filePath, ".md"): the last path segment with a matching
non-identical .md suffix removed. -/
def baseNameMd (p : String) : String :=
  let b := ((splitChar p.data (Char.ofNat 47)).getLast?).getD ""
  if b ≠ ".md" && strEndsWith b ".md" then String.mk (b.data.take (b.data.length - 3))
  else b

/-- AgentsLinter.checkNameMatchesFilename. -/
def checkNameMatchesFilename (name filePath : String) (result : LintResult) : LintResult :=
  let expectedName := baseNameMd filePath
  if name ≠ expectedName && !strEndsWith name "-expert" then
    addSuggestion result ("name \"" ++ name ++ "\" doesn" ++ apos
      ++ "t match filename \"" ++ expectedName ++ "\"")
  else result

/-- The tools ?? allowed-tools nullish coalescing at the top of
validateAdditional. -/
def toolsFieldOf (fm : List (String × JVal)) : Option JVal :=
  match lookupJ fm "tools" with
  | some .nullv => lookupJ fm "allowed-tools"
  | none => lookupJ fm "allowed-tools"
  | some v => some v

/-- The field-name pick: frontmatter.tools !== undefined picks "tools". -/
def toolsFieldName (fm : List (String × JVal)) : String :=
  if lookupJ fm "tools" ≠ none then "tools" else "allowed-tools"

/-- validateAdditional, statement 1: tools validation. -/
def vaToolsStep (fm : List (String × JVal)) (r : LintResult) : LintResult :=
  match toolsFieldOf fm with
  | some v => validateTools v r (toolsFieldName fm)
  | none => r

/-- validateAdditional, statement 2: name-vs-filename check for a truthy
string name. -/
def vaNameStep (fm : List (String × JVal)) (fp : String) (r : LintResult) : LintResult :=
  match lookupJ fm "name" with
  | some (.str s) => if s ≠ "" then checkNameMatchesFilename s fp r else r
  | _ => r

/-- validateAdditional, statement 3: displayName suggestion. -/
def vaDisplayNameStep (fm : List (String × JVal)) (r : LintResult) : LintResult :=
  if !jsTruthy (lookupJ fm "displayName")
      && (match lookupJ fm "name" with
          | some (.str s) => s ≠ ""
          | _ => false) then
    addSuggestion r "Consider adding displayName for better UI presentation"
  else r

/-- validateAdditional, statement 4: duplicated-description suggestion. -/
def vaDescriptionDupStep (fm : List (String × JVal)) (md : String) (r : LintResult) :
    LintResult :=
  match lookupJ fm "description" with
  | some (.str s) =>
    if s ≠ "" && strStartsWith (trimStr md) s then
      addSuggestion r "Description is duplicated in markdown content"
    else r
  | _ => r

/-- validateAdditional, statement 5: bundle-format suggestion. -/
def vaBundleStep (fm : List (String × JVal)) (r : LintResult) : LintResult :=
  match lookupJ fm "bundle" with
  | some (.str s) =>
    if s ≠ "" then addSuggestion r "bundle field should be an array, not a string"
    else r
  | _ => r

/-- AgentsLinter.validateAdditional: its five statements in source order,
then the custom-validation hook. -/
def validateAdditional (fm : List (String × JVal)) (markdown : String)
    (result : LintResult) (filePath : String) (config : Option CclintConfig) : LintResult :=
  runCustomValidation fm
    (vaBundleStep fm
      (vaDescriptionDupStep fm markdown
        (vaDisplayNameStep fm
          (vaNameStep fm filePath
            (vaToolsStep fm result)))))
    (match config with
     | some c => c.agentCustomValidation
     | none => none)

/-- The issue-loop body of lintAgentFile: handleZodValidationIssue invoked
with the five arguments the agents linter passes (the sixth is undefined). -/
def agentIssueStep (r : LintResult) (issue : ZIssue) :
    Except (String × LintResult) LintResult :=
  handleZodValidationIssue issue r addErrorCb addWarningCb addMissingFieldCb
    undefinedUnusedFieldCb

/-- AgentsLinter.lintAgentFile for a file that was read successfully, has
front matter, and whose front matter parsed: schema validation via
safeParse, markInvalid on failure, the issue loop delegating to
handleZodValidationIssue (with only five of its six arguments supplied, the
call-site slip of the agents linter), then validateAdditional; the
surrounding try/catch turns a thrown exception into a
"Failed to parse file: ..." error on the partially built result. -/
def lintAgentFile (filePath : String) (fm : List (String × JVal)) (markdown : String)
    (config : Option CclintConfig) : LintResult :=
  let result := createResult filePath
  let issues := safeParseAgent (isStrict config) fm
  let result := if issues.isEmpty then result else markInvalid result
  match issues.foldlM agentIssueStep result with
  | .ok r => validateAdditional fm markdown r filePath config
  | .error (msg, r) => addError r ("Failed to parse file: " ++ msg)

/-- The result state an issue-loop outcome leaves behind: the final result
on normal completion, the state at the throw otherwise. -/
def resultEndState : Except (String × LintResult) LintResult → LintResult
  | .ok r => r
  | .error (_, r) => r

/-- What every mutation step of the agents linter other than
addMissingField guarantees: missingFields untouched, errors only appended
to, invalidity never undone. -/
def preservesCore (r r' : LintResult) : Prop :=
  r'.missingFields = r.missingFields
    ∧ (∀ e ∈ r.errors, e ∈ r'.errors)
    ∧ (r.valid = false → r'.valid = false)

theorem preservesCore_refl (r : LintResult) : preservesCore r r :=
  ⟨rfl, fun _ he => he, fun h => h⟩

theorem preservesCore_trans {a b c : LintResult}
    (h1 : preservesCore a b) (h2 : preservesCore b c) : preservesCore a c :=
  ⟨h2.1.trans h1.1, fun e he => h2.2.1 e (h1.2.1 e he), fun h => h2.2.2 (h1.2.2 h)⟩

theorem addError_preserves (r : LintResult) (m : String) :
    preservesCore r (addError r m) :=
  ⟨rfl, fun e he => List.mem_append_left _ he, fun _ => rfl⟩

theorem addWarning_preserves (r : LintResult) (m : String) :
    preservesCore r (addWarning r m) :=
  ⟨rfl, fun _ he => he, fun h => h⟩

theorem addSuggestion_preserves (r : LintResult) (m : String) :
    preservesCore r (addSuggestion r m) :=
  ⟨rfl, fun _ he => he, fun h => h⟩

theorem addUnusedField_preserves (r : LintResult) (f : String) :
    preservesCore r (addUnusedField r f) := by
  unfold addUnusedField
  split
  · exact preservesCore_refl r
  · exact ⟨rfl, fun _ he => he, fun h => h⟩

theorem agentIssueStep_preserves (r : LintResult) (issue : ZIssue)
    (hcode : ¬(issue.code = "invalid_type" ∧ issue.received = "undefined")) :
    preservesCore r (resultEndState (agentIssueStep r issue)) := by
  unfold agentIssueStep handleZodValidationIssue
  split
  · rename_i hc
    rw [if_neg (fun hr => hcode ⟨hc, hr⟩)]
    exact addError_preserves r _
  · split
    · cases hk : issue.keys with
      | nil => exact preservesCore_refl r
      | cons k ks =>
        show preservesCore r (resultEndState (List.foldlM _ r (k :: ks)))
        simp only [List.foldlM, undefinedUnusedFieldCb]
        exact preservesCore_refl r
    · exact addError_preserves r _

theorem foldIssues_preserves :
    ∀ (issues : List ZIssue) (r : LintResult),
      (∀ i ∈ issues, ¬(i.code = "invalid_type" ∧ i.received = "undefined")) →
      preservesCore r (resultEndState (issues.foldlM agentIssueStep r))
  | [], r, _ => preservesCore_refl r
  | i :: is, r, h => by
    have hstep := agentIssueStep_preserves r i (h i (List.mem_cons_self i is))
    show preservesCore r (resultEndState (agentIssueStep r i >>= fun r2 => is.foldlM agentIssueStep r2))
    cases hs : agentIssueStep r i with
    | error e =>
      rw [hs] at hstep
      simpa [Bind.bind, Except.bind, hs] using hstep
    | ok r2 =>
      rw [hs] at hstep
      simp only [resultEndState] at hstep
      have htail := foldIssues_preserves is r2 (fun j hj => h j (List.mem_cons_of_mem i hj))
      show preservesCore r (resultEndState (List.foldlM agentIssueStep r2 is))
      exact preservesCore_trans hstep htail

theorem toolStep_preserves (r : LintResult) (t : String) :
    preservesCore r (toolStep r t) := by
  unfold toolStep
  dsimp only
  split
  · split
    · exact preservesCore_trans (addWarning_preserves r _) (addWarning_preserves _ _)
    · exact addWarning_preserves r _
  · split
    · exact addWarning_preserves r _
    · exact preservesCore_refl r

theorem foldToolStep_preserves :
    ∀ (l : List String) (r : LintResult), preservesCore r (l.foldl toolStep r)
  | [], r => preservesCore_refl r
  | t :: ts, r =>
    preservesCore_trans (toolStep_preserves r t) (foldToolStep_preserves ts (toolStep r t))

theorem toolListCheck_preserves (l : List String) (r : LintResult) :
    preservesCore r (toolListCheck l r) := by
  unfold toolListCheck
  split
  · exact addWarning_preserves r _
  · exact foldToolStep_preserves l r

theorem validateTools_preserves (v : JVal) (r : LintResult) (fieldName : String) :
    preservesCore r (validateTools v r fieldName) := by
  unfold validateTools
  split
  · exact addWarning_preserves r _
  · split
    · split
      · exact preservesCore_refl r
      · exact toolListCheck_preserves _ r
    · split
      · exact addError_preserves r _
      · exact toolListCheck_preserves _ r
    · exact addError_preserves r _

theorem checkNameMatchesFilename_preserves (name fp : String) (r : LintResult) :
    preservesCore r (checkNameMatchesFilename name fp r) := by
  unfold checkNameMatchesFilename
  dsimp only
  split
  · exact addSuggestion_preserves r _
  · exact preservesCore_refl r

theorem runCustomValidation_preserves {α : Type} (data : α) (r : LintResult)
    (cv : Option (α → Except String (List String))) :
    preservesCore r (runCustomValidation data r cv) := by
  cases cv with
  | none => exact preservesCore_refl r
  | some f =>
    cases hf : f data with
    | error m =>
      simp only [runCustomValidation, hf]
      exact addError_preserves r _
    | ok errs =>
      simp only [runCustomValidation, hf]
      rw [runCustomValidation_fold]
      refine ⟨rfl, fun e he => List.mem_append_left _ he, fun h => ?_⟩
      rw [h]
      rfl

theorem vaToolsStep_preserves (fm : List (String × JVal)) (r : LintResult) :
    preservesCore r (vaToolsStep fm r) := by
  unfold vaToolsStep
  split
  · exact validateTools_preserves _ r _
  · exact preservesCore_refl r

theorem vaNameStep_preserves (fm : List (String × JVal)) (fp : String) (r : LintResult) :
    preservesCore r (vaNameStep fm fp r) := by
  unfold vaNameStep
  split
  · split
    · exact checkNameMatchesFilename_preserves _ _ r
    · exact preservesCore_refl r
  · exact preservesCore_refl r

theorem vaDisplayNameStep_preserves (fm : List (String × JVal)) (r : LintResult) :
    preservesCore r (vaDisplayNameStep fm r) := by
  unfold vaDisplayNameStep
  split
  · exact addSuggestion_preserves r _
  · exact preservesCore_refl r

theorem vaDescriptionDupStep_preserves (fm : List (String × JVal)) (md : String)
    (r : LintResult) : preservesCore r (vaDescriptionDupStep fm md r) := by
  unfold vaDescriptionDupStep
  split
  · split
    · exact addSuggestion_preserves r _
    · exact preservesCore_refl r
  · exact preservesCore_refl r

theorem vaBundleStep_preserves (fm : List (String × JVal)) (r : LintResult) :
    preservesCore r (vaBundleStep fm r) := by
  unfold vaBundleStep
  split
  · split
    · exact addSuggestion_preserves r _
    · exact preservesCore_refl r
  · exact preservesCore_refl r

theorem validateAdditional_preserves (fm : List (String × JVal)) (md : String)
    (r : LintResult) (fp : String) (config : Option CclintConfig) :
    preservesCore r (validateAdditional fm md r fp config) := by
  unfold validateAdditional
  exact preservesCore_trans (vaToolsStep_preserves fm r)
    (preservesCore_trans (vaNameStep_preserves fm fp _)
      (preservesCore_trans (vaDisplayNameStep_preserves fm _)
        (preservesCore_trans (vaDescriptionDupStep_preserves fm md _)
          (preservesCore_trans (vaBundleStep_preserves fm _)
            (runCustomValidation_preserves _ _ _)))))

/-- C1 (code bug): evaluating the agents linter on an agent file whose
front matter is valid except for one extra field foo under the default
(strict) configuration.  The schema failure marks the result invalid, and
the five-argument call to the six-parameter handleZodValidationIssue makes
the unrecognized-keys branch invoke an undefined callback: the TypeError is
caught by the outer try/catch as a parse failure.  The claimed outcome
(valid true, unusedFields containing foo, a warning naming foo) does not
occur: the result is invalid with empty unusedFields and warnings. -/
theorem lintAgentFile_strict_unknown_field_bug :
    lintAgentFile "/p/.claude/agents/test-agent.md"
      [("name", JVal.str "test-agent"), ("description", JVal.str "A test agent"),
       ("foo", JVal.num 1)]
      "Body" none
      = { file := "/p/.claude/agents/test-agent.md"
          valid := false
          errors := ["Failed to parse file: TypeError: addUnusedField is not a function"]
          warnings := []
          suggestions := []
          unusedFields := []
          missingFields := []
          customSchemaErrors := none } := by decide

/-- Counterexample to C6 as stated: the composed base schema also accepts
color set to the empty string, which is neither absent nor (in any casing)
one of the 8 allowlisted values, because the refinement returns true for
every falsy value; the resulting lint result is even fully valid. -/
theorem agentSchema_color_claim_counterexample :
    safeParseAgent true
        [("name", JVal.str "a"), ("description", JVal.str "b"), ("color", JVal.str "")] = []
    ∧ validClaudeColors.contains (toLowerStr "") = false
    ∧ (lintAgentFile "/p/a.md"
        [("name", JVal.str "a"), ("description", JVal.str "b"), ("color", JVal.str "")]
        "Body" none).valid = true := by
  refine ⟨by decide, by decide, by decide⟩

/-- C6 (amended): for an agent front matter with valid name and
description, the composed base schema accepts the color field exactly when
it is absent, the empty string, or lowercases into the 8-value allowlist;
in particular blue is accepted while a hex color and teal are each
rejected with an error that marks the result invalid. -/
theorem agentSchema_color_allowlist (n d s : String)
    (hn : nameRegexOk n = true) (hd : d ≠ "") :
    (safeParseAgent true
        [("name", JVal.str n), ("description", JVal.str d), ("color", JVal.str s)] = []
      ↔ (s = "" ∨ validClaudeColors.contains (toLowerStr s) = true))
    ∧ (safeParseAgent true
        [("name", JVal.str n), ("description", JVal.str d)] = [])
    ∧ (lintAgentFile "/p/x.md"
        [("name", JVal.str "x"), ("description", JVal.str "d"), ("color", JVal.str "blue")]
        "Body" none).valid = true
    ∧ ((lintAgentFile "/p/x.md"
        [("name", JVal.str "x"), ("description", JVal.str "d"), ("color", JVal.str "#FF0000")]
        "Body" none).valid = false
      ∧ "color: " ++ colorMessage "#FF0000" ∈ (lintAgentFile "/p/x.md"
        [("name", JVal.str "x"), ("description", JVal.str "d"), ("color", JVal.str "#FF0000")]
        "Body" none).errors)
    ∧ ((lintAgentFile "/p/x.md"
        [("name", JVal.str "x"), ("description", JVal.str "d"), ("color", JVal.str "teal")]
        "Body" none).valid = false
      ∧ "color: " ++ colorMessage "teal" ∈ (lintAgentFile "/p/x.md"
        [("name", JVal.str "x"), ("description", JVal.str "d"), ("color", JVal.str "teal")]
        "Body" none).errors) := by
  have hne : n ≠ "" := by
    have := (Bool.and_eq_true _ _).mp hn
    exact of_decide_eq_true this.1
  have hnlen : ¬(n.length < 1) := by
    cases n with
    | mk data =>
      cases data with
      | nil => exact absurd rfl hne
      | cons a l => simp [String.length]
  have hdlen : ¬(d.length < 1) := by
    cases d with
    | mk data =>
      cases data with
      | nil => exact absurd rfl hd
      | cons a l => simp [String.length]
  refine ⟨?_, ?_, by decide, ⟨by decide, by decide⟩, ⟨by decide, by decide⟩⟩
  · have hform : safeParseAgent true
        [("name", JVal.str n), ("description", JVal.str d), ("color", JVal.str s)]
        = (if colorRefineOk s then ([] : List ZIssue)
           else [customIssue "color" (colorMessage s)]) := by
      simp [safeParseAgent, checkName, checkDescription, checkToolsUnion, checkModel,
        checkColor, lookupJ, extraKeys, agentShapeKeys, hn, hnlen, hdlen]
    by_cases hc : colorRefineOk s = true
    · have hc' := hc
      simp only [colorRefineOk, Bool.or_eq_true, decide_eq_true_eq] at hc'
      rw [hform, if_pos hc]
      exact iff_of_true rfl hc'
    · have hc' := hc
      simp only [colorRefineOk, Bool.or_eq_true, decide_eq_true_eq, not_or] at hc'
      rw [hform, if_neg hc]
      exact iff_of_false (by simp) (fun hp => hp.elim hc'.1 hc'.2)
  · simp [safeParseAgent, checkName, checkDescription, checkToolsUnion, checkModel,
      checkColor, lookupJ, extraKeys, agentShapeKeys, hn, hnlen, hdlen]

/-- Witness for C6 at concrete inputs (name a, description b, color teal). -/
theorem agentSchema_color_allowlist_witness :
    nameRegexOk "a" = true
    ∧ ("b" : String) ≠ ""
    ∧ ((safeParseAgent true
        [("name", JVal.str "a"), ("description", JVal.str "b"), ("color", JVal.str "teal")] = []
      ↔ ("teal" = "" ∨ validClaudeColors.contains (toLowerStr "teal") = true))) := by
  refine ⟨by decide, by decide, ?_⟩
  exact (agentSchema_color_allowlist "a" "b" "teal" (by decide) (by decide)).1

/-- The shape-field issues other than the missing-name one, in Zod order. -/
def restAgentIssues (strict : Bool) (fm : List (String × JVal)) : List ZIssue :=
  checkDescription fm ++ checkToolsUnion fm "tools" ++ checkToolsUnion fm "allowed-tools"
    ++ checkModel fm ++ checkColor fm
    ++ (if strict && !(extraKeys fm).isEmpty then [unrecognizedIssue (extraKeys fm)] else [])

theorem safeParseAgent_noName (strict : Bool) (fm : List (String × JVal))
    (h : lookupJ fm "name" = none) :
    safeParseAgent strict fm = requiredIssue "name" :: restAgentIssues strict fm := by
  simp [safeParseAgent, checkName, h, restAgentIssues]

theorem typeName_ne_undefined (v : JVal) : typeName v ≠ "undefined" := by
  cases v with
  | str s => exact (by decide : ("string" : String) ≠ "undefined")
  | num n => exact (by decide : ("number" : String) ≠ "undefined")
  | bool b => exact (by decide : ("boolean" : String) ≠ "undefined")
  | arr xs => exact (by decide : ("array" : String) ≠ "undefined")
  | nullv => exact (by decide : ("null" : String) ≠ "undefined")

theorem mem_checkDescription_not_required (fm : List (String × JVal))
    (h : lookupJ fm "description" ≠ none) :
    ∀ i ∈ checkDescription fm, ¬(i.code = "invalid_type" ∧ i.received = "undefined") := by
  intro i hi
  cases hv : lookupJ fm "description" with
  | none => exact absurd hv h
  | some v =>
    cases v with
    | str ss =>
      simp only [checkDescription, hv] at hi
      split at hi
      · simp at hi
        subst hi
        simp [tooSmallIssue]
      · simp at hi
    | num nn =>
      simp only [checkDescription, hv] at hi
      simp at hi
      subst hi
      exact fun hx => typeName_ne_undefined (JVal.num nn) hx.2
    | bool b =>
      simp only [checkDescription, hv] at hi
      simp at hi
      subst hi
      exact fun hx => typeName_ne_undefined (JVal.bool b) hx.2
    | arr xs =>
      simp only [checkDescription, hv] at hi
      simp at hi
      subst hi
      exact fun hx => typeName_ne_undefined (JVal.arr xs) hx.2
    | nullv =>
      simp only [checkDescription, hv] at hi
      simp at hi
      subst hi
      exact fun hx => typeName_ne_undefined JVal.nullv hx.2

theorem mem_checkToolsUnion_not_required (fm : List (String × JVal)) (k : String) :
    ∀ i ∈ checkToolsUnion fm k, ¬(i.code = "invalid_type" ∧ i.received = "undefined") := by
  intro i hi
  cases hv : lookupJ fm k with
  | none => simp [checkToolsUnion, hv] at hi
  | some v =>
    simp only [checkToolsUnion, hv] at hi
    split at hi
    · simp at hi
    · simp at hi
      subst hi
      intro hx
      simp [unionIssue] at hx

theorem mem_checkModel_not_required (fm : List (String × JVal)) :
    ∀ i ∈ checkModel fm, ¬(i.code = "invalid_type" ∧ i.received = "undefined") := by
  intro i hi
  cases hv : lookupJ fm "model" with
  | none => simp [checkModel, hv] at hi
  | some v =>
    cases v with
    | str ss =>
      simp only [checkModel, hv] at hi
      split at hi
      · simp at hi
      · simp at hi
        subst hi
        intro hx
        simp [enumIssue] at hx
    | num nn =>
      simp only [checkModel, hv] at hi
      simp at hi
      subst hi
      exact fun hx => typeName_ne_undefined (JVal.num nn) hx.2
    | bool b =>
      simp only [checkModel, hv] at hi
      simp at hi
      subst hi
      exact fun hx => typeName_ne_undefined (JVal.bool b) hx.2
    | arr xs =>
      simp only [checkModel, hv] at hi
      simp at hi
      subst hi
      exact fun hx => typeName_ne_undefined (JVal.arr xs) hx.2
    | nullv =>
      simp only [checkModel, hv] at hi
      simp at hi
      subst hi
      exact fun hx => typeName_ne_undefined JVal.nullv hx.2

theorem mem_checkColor_not_required (fm : List (String × JVal)) :
    ∀ i ∈ checkColor fm, ¬(i.code = "invalid_type" ∧ i.received = "undefined") := by
  intro i hi
  cases hv : lookupJ fm "color" with
  | none => simp [checkColor, hv] at hi
  | some v =>
    cases v with
    | str ss =>
      simp only [checkColor, hv] at hi
      split at hi
      · simp at hi
      · simp at hi
        subst hi
        intro hx
        simp [customIssue] at hx
    | num nn =>
      simp only [checkColor, hv] at hi
      simp at hi
      subst hi
      exact fun hx => typeName_ne_undefined (JVal.num nn) hx.2
    | bool b =>
      simp only [checkColor, hv] at hi
      simp at hi
      subst hi
      exact fun hx => typeName_ne_undefined (JVal.bool b) hx.2
    | arr xs =>
      simp only [checkColor, hv] at hi
      simp at hi
      subst hi
      exact fun hx => typeName_ne_undefined (JVal.arr xs) hx.2
    | nullv =>
      simp only [checkColor, hv] at hi
      simp at hi
      subst hi
      exact fun hx => typeName_ne_undefined JVal.nullv hx.2

theorem restAgentIssues_not_required (strict : Bool) (fm : List (String × JVal))
    (hdesc : lookupJ fm "description" ≠ none) :
    ∀ i ∈ restAgentIssues strict fm,
      ¬(i.code = "invalid_type" ∧ i.received = "undefined") := by
  intro i hi
  simp only [restAgentIssues, List.append_assoc, List.mem_append] at hi
  rcases hi with hi | hi | hi | hi | hi | hi
  · exact mem_checkDescription_not_required fm hdesc i hi
  · exact mem_checkToolsUnion_not_required fm "tools" i hi
  · exact mem_checkToolsUnion_not_required fm "allowed-tools" i hi
  · exact mem_checkModel_not_required fm i hi
  · exact mem_checkColor_not_required fm i hi
  · split at hi
    · simp at hi
      subst hi
      intro hx
      simp [unrecognizedIssue] at hx
    · simp at hi

/-- C7: for every agent file whose front matter has a description key but
no name key, linted with no project configuration, the result has
missingFields exactly [name], an error "Missing required field: name", and
valid false. -/
theorem lintAgentFile_missing_name (fp md : String) (fm : List (String × JVal))
    (hname : lookupJ fm "name" = none)
    (hdesc : lookupJ fm "description" ≠ none) :
    (lintAgentFile fp fm md none).missingFields = ["name"]
    ∧ "Missing required field: name" ∈ (lintAgentFile fp fm md none).errors
    ∧ (lintAgentFile fp fm md none).valid = false := by
  have hs : safeParseAgent (isStrict none) fm
      = requiredIssue "name" :: restAgentIssues true fm := by
    rw [show isStrict none = true from rfl]
    exact safeParseAgent_noName true fm hname
  have hR1 : agentIssueStep (markInvalid (createResult fp)) (requiredIssue "name")
      = .ok { file := fp, valid := false
              errors := ["Missing required field: name"]
              warnings := [], suggestions := [], unusedFields := []
              missingFields := ["name"], customSchemaErrors := none } := rfl
  set R1 : LintResult :=
    { file := fp, valid := false
      errors := ["Missing required field: name"]
      warnings := [], suggestions := [], unusedFields := []
      missingFields := ["name"], customSchemaErrors := none } with hR1def
  have hout : lintAgentFile fp fm md none
      = (match restAgentIssues true fm |>.foldlM agentIssueStep R1 with
         | .ok r => validateAdditional fm md r fp none
         | .error (msg, r) => addError r ("Failed to parse file: " ++ msg)) := by
    unfold lintAgentFile
    rw [hs]
    simp only [List.isEmpty_cons]
    rw [if_neg (by decide)]
    rw [List.foldlM_cons, hR1]
    rfl
  have hpres := foldIssues_preserves (restAgentIssues true fm) R1
    (restAgentIssues_not_required true fm hdesc)
  rw [hout]
  cases hfold : (restAgentIssues true fm).foldlM agentIssueStep R1 with
  | ok r2 =>
    rw [hfold] at hpres
    simp only [resultEndState] at hpres
    have hva := validateAdditional_preserves fm md r2 fp none
    have hmem : "Missing required field: name" ∈ R1.errors := by
      rw [hR1def]; exact List.mem_singleton.mpr rfl
    exact ⟨hva.1.trans hpres.1, hva.2.1 _ (hpres.2.1 _ hmem), hva.2.2 (hpres.2.2 rfl)⟩
  | error em =>
    cases em with
    | mk msg r2 =>
      rw [hfold] at hpres
      simp only [resultEndState] at hpres
      have hae := addError_preserves r2 ("Failed to parse file: " ++ msg)
      have hmem : "Missing required field: name" ∈ R1.errors := by
        rw [hR1def]; exact List.mem_singleton.mpr rfl
      exact ⟨hae.1.trans hpres.1, hae.2.1 _ (hpres.2.1 _ hmem), hae.2.2 (hpres.2.2 rfl)⟩

/-- Witness for C7 at a concrete input: front matter with only a
description. -/
theorem lintAgentFile_missing_name_witness :
    lookupJ [("description", JVal.str "A test agent")] "name" = none
    ∧ lookupJ [("description", JVal.str "A test agent")] "description" ≠ none
    ∧ ((lintAgentFile "/p/a.md" [("description", JVal.str "A test agent")] "Body"
          none).missingFields = ["name"]
      ∧ "Missing required field: name"
          ∈ (lintAgentFile "/p/a.md" [("description", JVal.str "A test agent")] "Body"
              none).errors
      ∧ (lintAgentFile "/p/a.md" [("description", JVal.str "A test agent")] "Body"
          none).valid = false) :=
  ⟨by decide, by decide,
   lintAgentFile_missing_name "/p/a.md" "Body" [("description", JVal.str "A test agent")]
     (by decide) (by decide)⟩

/-! ## POSIX path arithmetic (Node path.resolve / path.relative /
path.isAbsolute) and the path security gate (lib/utils.ts, sanitizePath)

Absolute paths are represented canonically as their segment lists; the
process working directory enters as the (already resolved) segment list
used by path.resolve for relative arguments.  The filesystem effects of
fs.stat and fs.realpath are an explicit oracle. -/

/-- The nonempty segments of a path string (split on slash). -/
def splitSegs (s : String) : List String :=
  (splitChar s.data (Char.ofNat 47)).filter (fun t => t ≠ "")

/-- path.isAbsolute on POSIX. -/
def isAbsStr (s : String) : Bool := strStartsWith s "/"

/-- One normalization step: "." is dropped, ".." pops (or is dropped at the
root), anything else is appended. -/
def normStep (acc : List String) (seg : String) : List String :=
  if seg = "." then acc
  else if seg = ".." then acc.dropLast
  else acc ++ [seg]

/-- Normalization of an absolute path given as segments. -/
def normSegs (segs : List String) : List String := segs.foldl normStep []

/-- path.resolve(base, p) for an absolute base given as normalized
segments: an absolute p replaces the base, a relative p is appended and the
result normalized. -/
def resolveSegs (base : List String) (p : String) : List String :=
  if isAbsStr p then normSegs (splitSegs p) else normSegs (base ++ splitSegs p)

/-- Render an absolute segment list back to a path string. -/
def renderAbs (segs : List String) : String :=
  "/" ++ String.intercalate "/" segs

/-- Strip the common prefix of two segment lists. -/
def dropCommon : List String → List String → List String × List String
  | a :: as, b :: bs => if a = b then dropCommon as bs else (a :: as, b :: bs)
  | as, bs => (as, bs)

/-- path.relative between two absolute segment lists: one ".." per
remaining source segment, then the remaining target segments. -/
def relativeSegs (f t : List String) : String :=
  let p := dropCommon f t
  String.intercalate "/" (List.replicate p.1.length ".." ++ p.2)

/-- The boundary test applied to a path.relative result:
relativePath.startsWith("..") || path.isAbsolute(relativePath). -/
def relEscapes (rel : String) : Bool := strStartsWith rel ".." || isAbsStr rel

/-- PathSecurityError (lib/utils.ts): message plus the offending path. -/
structure PathSecurityError where
  message : String
  path : String
deriving DecidableEq, Repr

/-- A Node filesystem error code as distinguished by the catch in
sanitizePath. -/
inductive FsErr where
  | noent
  | acces
  | generic (msg : String)
deriving DecidableEq, Repr

/-- The outcome of fs.stat. -/
inductive StatRes where
  | statDir
  | statFile
  | statErr (e : FsErr)
deriving DecidableEq, Repr

/-- The filesystem oracle used by sanitizePath. -/
structure FSModel where
  stat : String → StatRes
  realpath : String → Except FsErr String

/-- The error translation of the catch block in sanitizePath; the message
always names the nominal resolved path. -/
def fsErrToPSErr (e : FsErr) (resolvedPath inputPath : String) : PathSecurityError :=
  match e with
  | .noent => ⟨"Path does not exist: " ++ resolvedPath, inputPath⟩
  | .acces => ⟨"Permission denied accessing path: " ++ resolvedPath, inputPath⟩
  | .generic m =>
    ⟨"Failed to access path: " ++ resolvedPath ++ " (" ++ m ++ ")", inputPath⟩

/-- The try block of sanitizePath after the boundary check: existence and
directory check, then the symlink defense comparing the real paths of
target and base. -/
def sanitizeFsPhase (fs : FSModel) (cwd : List String)
    (resolvedPath resolvedBasePath inputPath : String) :
    Except PathSecurityError String :=
  match fs.stat resolvedPath with
  | .statErr e => .error (fsErrToPSErr e resolvedPath inputPath)
  | .statFile => .error ⟨"Path must be a directory: " ++ resolvedPath, inputPath⟩
  | .statDir =>
    match fs.realpath resolvedPath with
    | .error e => .error (fsErrToPSErr e resolvedPath inputPath)
    | .ok realPath =>
      match fs.realpath resolvedBasePath with
      | .error e => .error (fsErrToPSErr e resolvedPath inputPath)
      | .ok realBasePath =>
        if relEscapes (relativeSegs (resolveSegs cwd realBasePath)
            (resolveSegs cwd realPath)) then
          .error ⟨"Symbolic link traversal detected. Path " ++ apos ++ inputPath
            ++ apos ++ " links outside allowed directory", inputPath⟩
        else .ok realPath

/-- The input cleaning of sanitizePath: trim, then strip null bytes
(inputPath.trim().replace of null with nothing). -/
def cleanInputPath (inputPath : String) : String :=
  String.mk ((trimStr inputPath).data.filter (fun c => c.toNat ≠ 0))

/-- sanitizePath (lib/utils.ts): empty-input checks, input cleaning, base
and input resolution, the traversal boundary check, then the filesystem
phase. -/
def sanitizePath (fs : FSModel) (cwd : List String) (inputPath : String)
    (allowedBasePath : String) : Except PathSecurityError String :=
  if inputPath = "" then .error ⟨"Path must be a non-empty string", inputPath⟩
  else
    let cleanPath := cleanInputPath inputPath
    if cleanPath = "" then
      .error ⟨"Path cannot be empty or whitespace only", inputPath⟩
    else
      let resolvedBasePath := resolveSegs cwd allowedBasePath
      let resolvedPath :=
        if isAbsStr cleanPath then resolveSegs cwd cleanPath
        else resolveSegs resolvedBasePath cleanPath
      if relEscapes (relativeSegs resolvedBasePath resolvedPath) then
        .error ⟨"Path traversal attempt detected. Path " ++ apos ++ inputPath ++ apos
          ++ " resolves outside allowed directory " ++ apos ++ allowedBasePath ++ apos,
          inputPath⟩
      else
        sanitizeFsPhase fs cwd (renderAbs resolvedPath) (renderAbs resolvedBasePath)
          inputPath

/-- Counterexample to C5 as stated: an input with an embedded null byte is
not rejected — the null bytes are stripped, and when the stripped path is
an existing in-boundary directory, sanitizePath returns it. -/
theorem sanitizePath_nullbyte_counterexample :
    strIncludes "sub\x00dir" (String.singleton (Char.ofNat 0)) = true
    ∧ sanitizePath
        { stat := fun p => if p = "/base/subdir" then .statDir else .statErr .noent
          realpath := fun p => .ok p }
        [] "sub\x00dir" "/base"
      = .ok "/base/subdir" := by
  refine ⟨by decide, by rfl⟩

/-- C5 (amended): sanitizePath raises PathSecurityError, returning no path,
for every empty input and for every input whose null-stripped, trimmed form
is empty or whose resolved form relative to basePath starts with an upward
traversal segment or is absolute outside the base; relative inputs are
resolved against basePath before the boundary check, and an in-boundary
input proceeds to the filesystem phase on the base-resolved path.  Null
bytes are stripped from the input rather than rejected. -/
theorem sanitizePath_spec (fs : FSModel) (cwd : List String)
    (input base : String) :
    (input = "" →
      sanitizePath fs cwd input base = .error ⟨"Path must be a non-empty string", input⟩)
    ∧ (input ≠ "" → cleanInputPath input = "" →
      sanitizePath fs cwd input base
        = .error ⟨"Path cannot be empty or whitespace only", input⟩)
    ∧ (input ≠ "" → cleanInputPath input ≠ "" →
      relEscapes (relativeSegs (resolveSegs cwd base)
        (if isAbsStr (cleanInputPath input) then resolveSegs cwd (cleanInputPath input)
         else resolveSegs (resolveSegs cwd base) (cleanInputPath input))) = true →
      sanitizePath fs cwd input base
        = .error ⟨"Path traversal attempt detected. Path " ++ apos ++ input ++ apos
            ++ " resolves outside allowed directory " ++ apos ++ base ++ apos, input⟩)
    ∧ (input ≠ "" → cleanInputPath input ≠ "" → isAbsStr (cleanInputPath input) = false →
      relEscapes (relativeSegs (resolveSegs cwd base)
        (resolveSegs (resolveSegs cwd base) (cleanInputPath input))) = false →
      sanitizePath fs cwd input base
        = sanitizeFsPhase fs cwd
            (renderAbs (resolveSegs (resolveSegs cwd base) (cleanInputPath input)))
            (renderAbs (resolveSegs cwd base)) input) := by
  refine ⟨?_, ?_, ?_, ?_⟩
  · intro h
    simp [sanitizePath, h]
  · intro h1 h2
    simp [sanitizePath, h1, h2]
  · intro h1 h2 h3
    simp [sanitizePath, h1, h2, h3]
  · intro h1 h2 h3 h4
    simp [sanitizePath, h1, h2, h3, h4]

/-- Witness for C5 at concrete inputs: an upward-traversing input is
rejected with the traversal error. -/
theorem sanitizePath_spec_witness :
    (("../x" : String) ≠ ""
      ∧ cleanInputPath "../x" ≠ ""
      ∧ relEscapes (relativeSegs (resolveSegs [] "/base")
          (if isAbsStr (cleanInputPath "../x") then resolveSegs [] (cleanInputPath "../x")
           else resolveSegs (resolveSegs [] "/base") (cleanInputPath "../x"))) = true)
    ∧ sanitizePath
        { stat := fun _ => .statErr .noent, realpath := fun p => .ok p }
        [] "../x" "/base"
      = .error ⟨"Path traversal attempt detected. Path " ++ apos ++ "../x" ++ apos
          ++ " resolves outside allowed directory " ++ apos ++ "/base" ++ apos, "../x"⟩ :=
  ⟨⟨by decide, by decide, by decide⟩,
   (sanitizePath_spec { stat := fun _ => .statErr .noent, realpath := fun p => .ok p }
      [] "../x" "/base").2.2.1 (by decide) (by decide) (by decide)⟩

/-! ## Configuration loading (lib/config.ts)

The dangerous-pattern static scan is a small regular-expression matcher
over the raw source: each of the six source regexes is a token sequence
(literals, whitespace-star, dot-star without newlines, alternation,
word-char-plus, optional literal).  The matcher carries explicit fuel — an
upper bound on recursion depth, since every step consumes either a token or
a character — so that it is structurally recursive and kernel-computable.
Filesystem and dynamic-import effects are an oracle per config path. -/

/-- A regular-expression token of the dangerous-pattern scan. -/
inductive RTok where
  | lit (s : String)
  | ws
  | anyNN
  | alt (ss : List String)
  | wordPlus
  | optLit (s : String)

/-- A regex word character \w. -/
def isWordChar (c : Char) : Bool :=
  (65 ≤ c.toNat && c.toNat ≤ 90) || (97 ≤ c.toNat && c.toNat ≤ 122)
    || (48 ≤ c.toNat && c.toNat ≤ 57) || c.toNat = 95

/-- A character the regex dot matches (anything but a line terminator). -/
def isNotNewline (c : Char) : Bool := c.toNat ≠ 10 && c.toNat ≠ 13

/-- Token-sequence matching at the start of the character list, with
fuel. -/
def matchToksF : Nat → List RTok → List Char → Bool
  | 0, _, _ => false
  | _ + 1, [], _ => true
  | fuel + 1, .lit s :: ts, cs =>
    hasPre s.data cs && matchToksF fuel ts (cs.drop s.data.length)
  | fuel + 1, .ws :: ts, cs =>
    matchToksF fuel ts cs
      || (match cs with
          | c :: rest => isWsChar c && matchToksF fuel (.ws :: ts) rest
          | [] => false)
  | fuel + 1, .anyNN :: ts, cs =>
    matchToksF fuel ts cs
      || (match cs with
          | c :: rest => isNotNewline c && matchToksF fuel (.anyNN :: ts) rest
          | [] => false)
  | fuel + 1, .alt ss :: ts, cs =>
    ss.any (fun s => hasPre s.data cs && matchToksF fuel ts (cs.drop s.data.length))
  | fuel + 1, .wordPlus :: ts, cs =>
    (match cs with
     | c :: rest =>
       isWordChar c && (matchToksF fuel ts rest || matchToksF fuel (.wordPlus :: ts) rest)
     | [] => false)
  | fuel + 1, .optLit s :: ts, cs =>
    matchToksF fuel ts cs
      || (hasPre s.data cs && matchToksF fuel ts (cs.drop s.data.length))

/-- Match a token sequence at the start of cs.  Every recursive step of the
matcher consumes a token or a character, so this fuel suffices. -/
def matchToks (ts : List RTok) (cs : List Char) : Bool :=
  matchToksF (2 * (cs.length + ts.length) + 2) ts cs

/-- Match a token sequence anywhere in the character list (an unanchored
regex test). -/
def searchMatch (ts : List RTok) : List Char → Bool
  | [] => matchToks ts []
  | c :: rest => matchToks ts (c :: rest) || searchMatch ts rest

/-- The quote character class of the source regexes. -/
def quoteAlt : RTok := .alt ["\"", apos]

/-- The dangerous module alternation of the source regexes. -/
def moduleAlt : RTok := .alt ["child_process", "fs", "path", "os", "cluster"]

/-- The six dangerousPatterns of loadJsConfig, one token sequence per
source regex. -/
def dangerousPatterns : List (List RTok) :=
  [[.lit "require", .ws, .lit "(", quoteAlt, moduleAlt, quoteAlt, .lit ")"],
   [.lit "import", .anyNN, quoteAlt, moduleAlt, quoteAlt],
   [.lit "process", .ws, .lit ".", .ws, .alt ["exec", "spawn", "exit"]],
   [.lit "eval", .ws, .lit "("],
   [.lit "Function", .ws, .lit "("],
   [.lit "global", .optLit "This", .lit ".", .wordPlus, .ws, .lit "="]]

/-- The static analysis over the raw config source: any pattern match is a
security rejection. -/
def dangerousScan (src : String) : Bool :=
  dangerousPatterns.any (fun p => searchMatch p src.data)

/-- CONFIG_FILES, in precedence order (first found wins). -/
def CONFIG_FILES : List String :=
  [".cclintrc.json", "cclint.config.json", "cclint.config.js", "cclint.config.mjs",
   ".cclintrc.js", ".cclintrc.mjs"]

/-- The script-based configuration file names among CONFIG_FILES. -/
def jsConfigNames : List String :=
  ["cclint.config.js", "cclint.config.mjs", ".cclintrc.js", ".cclintrc.mjs"]

/-- DANGEROUS_SYSTEM_PATHS. -/
def DANGEROUS_SYSTEM_PATHS : List String :=
  ["/etc/passwd", "/etc/shadow", "/etc/hosts", "/usr/bin", "/usr/sbin", "/sys",
   "/proc", "/dev", "/bin", "/sbin"]

/-- isSystemPath. -/
def isSystemPath (resolvedPath : String) : Bool :=
  DANGEROUS_SYSTEM_PATHS.any (fun d => strStartsWith resolvedPath d || resolvedPath = d)

/-- validateProjectRoot: input validation, traversal rejection, resolution,
system-path rejection.  A thrown Error is the Except.error case. -/
def validateProjectRoot (cwd : List String) (projectRoot : String) :
    Except String String :=
  if projectRoot = "" ∨ strIncludes projectRoot (String.singleton (Char.ofNat 0)) = true
      ∨ trimStr projectRoot = "" then
    .error "Invalid project root path: contains unsafe characters or patterns"
  else
    let cleanPath := trimStr projectRoot
    if strIncludes cleanPath ".." then
      .error ("Invalid project root path: path traversal detected with "
        ++ apos ++ "../" ++ apos)
    else
      let resolvedPath := renderAbs (resolveSegs cwd cleanPath)
      if isSystemPath resolvedPath then
        .error ("Invalid project root path: cannot access system directory " ++ resolvedPath)
      else .ok resolvedPath

/-- The behavior of a dynamically imported function export when raced
against the 5-second timeout: it resolves first, rejects first, or the
timeout fires first. -/
inductive FnRes where
  | resolvesObj (c : CclintConfig)
  | resolvesNonObject
  | rejects (msg : String)
  | timesOut

/-- The behavior of the dynamic import of a config path: the import throws,
or its default export is an object (or null/non-object), or a function. -/
inductive ImportRes where
  | throws (msg : String)
  | exportsObj (c : CclintConfig)
  | exportsNonObject
  | exportsFn (fn : FnRes)

/-- The filesystem / module-loading oracle of the configuration loader,
keyed by configuration file path. -/
structure ConfigEnv where
  present : String → Bool
  jsonLoad : String → Except String CclintConfig
  realpath : String → Option String
  content : String → Option String
  importRes : String → ImportRes

/-- path.join(projectRoot, name) for a resolved absolute root and a bare
file name. -/
def joinPath (root name : String) : String :=
  if root = "/" then "/" ++ name else root ++ "/" ++ name

/-- path.basename. -/
def baseName (p : String) : String :=
  ((splitChar p.data (Char.ofNat 47)).getLast?).getD ""

/-- loadJsConfig (lib/config.ts): symlink-aware boundary re-check, file
name allow-list, read, static scan, dynamic import with the function-export
timeout race; fs.realpath failures fall back to the nominal path. -/
def loadJsConfig (env : ConfigEnv) (cwd : List String)
    (configPath projectRoot : String) : Except String CclintConfig :=
  if relEscapes (relativeSegs
      (resolveSegs cwd ((env.realpath projectRoot).getD projectRoot))
      (resolveSegs cwd ((env.realpath configPath).getD configPath))) then
    .error ("[SECURITY] Configuration file is outside project boundary: " ++ configPath)
  else if !CONFIG_FILES.contains (baseName configPath) then
    .error ("[SECURITY] Invalid configuration file name: " ++ baseName configPath
      ++ ". Must be one of: " ++ String.intercalate ", " CONFIG_FILES)
  else
    match env.content configPath with
    | none => .error ("Failed to read configuration file: " ++ configPath)
    | some src =>
      if dangerousScan src then
        .error ("[SECURITY] Configuration file contains potentially dangerous code pattern: "
          ++ configPath)
      else
        match env.importRes configPath with
        | .throws m => .error m
        | .exportsObj c => .ok c
        | .exportsNonObject =>
          .error "Configuration export must be an object or function returning an object"
        | .exportsFn fn =>
          match fn with
          | .resolvesObj c => .ok c
          | .resolvesNonObject =>
            .error "Configuration export must be an object or function returning an object"
          | .rejects m => .error m
          | .timesOut => .error "Configuration function execution timeout"

/-- The per-process configuration cache, keyed by resolved project root. -/
def ConfigCache : Type := List (String × Option CclintConfig)

/-- configCache.has / .get. -/
def cacheLookup (cache : ConfigCache) (k : String) : Option (Option CclintConfig) :=
  match cache with
  | ([] : List (String × Option CclintConfig)) => none
  | (k2, v) :: rest => if k2 = k then some v else cacheLookup rest k

/-- configCache.set. -/
def cacheSet (cache : ConfigCache) (k : String) (v : Option CclintConfig) : ConfigCache :=
  ((k, v) :: cache : List (String × Option CclintConfig))

/-- The for-of loop of loadConfig over CONFIG_FILES: boundary check, access
check, JSON or (when allowJs) script loading; a [SECURITY] error caches and
returns null immediately, any other error moves on to the next candidate;
after the loop the result (still null if nothing loaded) is cached. -/
def loadConfigLoop (env : ConfigEnv) (cwd : List String) (root' : String)
    (allowJs : Bool) :
    List String → ConfigCache → Option CclintConfig × ConfigCache
  | [], cache => (none, cacheSet cache root' none)
  | name :: rest, cache =>
    let configPath := joinPath root' name
    if relEscapes (relativeSegs (resolveSegs cwd root') (resolveSegs cwd configPath)) then
      loadConfigLoop env cwd root' allowJs rest cache
    else if !env.present configPath then
      loadConfigLoop env cwd root' allowJs rest cache
    else if strEndsWith name ".json" then
      match env.jsonLoad configPath with
      | .ok c => (some c, cacheSet cache root' (some c))
      | .error e =>
        if strIncludes e "[SECURITY]" then (none, cacheSet cache root' none)
        else loadConfigLoop env cwd root' allowJs rest cache
    else if !allowJs then
      loadConfigLoop env cwd root' allowJs rest cache
    else
      match loadJsConfig env cwd configPath root' with
      | .ok c => (some c, cacheSet cache root' (some c))
      | .error e =>
        if strIncludes e "[SECURITY]" then (none, cacheSet cache root' none)
        else loadConfigLoop env cwd root' allowJs rest cache

/-- loadConfig (lib/config.ts): root validation, cache check, then the
candidate loop.  Returns the loaded (or null) configuration together with
the updated cache. -/
def loadConfig (env : ConfigEnv) (cwd : List String) (cache : ConfigCache)
    (projectRoot : String) (allowJs : Bool) :
    Except String (Option CclintConfig × ConfigCache) :=
  match validateProjectRoot cwd projectRoot with
  | .error e => .error e
  | .ok root' =>
    match cacheLookup cache root' with
    | some v => .ok (v, cache)
    | none => .ok (loadConfigLoop env cwd root' allowJs CONFIG_FILES cache)

theorem loadConfigLoop_skip (env : ConfigEnv) (cwd : List String) (root' : String)
    (allowJs : Bool) (name : String) (rest : List String) (cache : ConfigCache)
    (h : env.present (joinPath root' name) = false) :
    loadConfigLoop env cwd root' allowJs (name :: rest) cache
      = loadConfigLoop env cwd root' allowJs rest cache := by
  conv_lhs => rw [loadConfigLoop]
  try dsimp only
  split
  · rfl
  · rw [h]
    simp

theorem loadConfigLoop_absent (env : ConfigEnv) (cwd : List String) (root' : String)
    (allowJs : Bool) :
    ∀ (names : List String) (cache : ConfigCache),
      (∀ n ∈ names, env.present (joinPath root' n) = false) →
      loadConfigLoop env cwd root' allowJs names cache = (none, cacheSet cache root' none)
  | [], _, _ => rfl
  | n :: rest, cache, h => by
    rw [loadConfigLoop_skip env cwd root' allowJs n rest cache (h n (List.mem_cons_self n rest))]
    exact loadConfigLoop_absent env cwd root' allowJs rest cache
      (fun m hm => h m (List.mem_cons_of_mem n hm))

theorem loadJsConfig_trigger_error (env : ConfigEnv) (cwd : List String)
    (configPath root' : String)
    (htrigger :
      (∃ src, env.content configPath = some src ∧ dangerousScan src = true)
      ∨ env.importRes configPath = .exportsFn .timesOut
      ∨ (∃ m, env.importRes configPath = .exportsFn (.rejects m))) :
    ∀ c, loadJsConfig env cwd configPath root' ≠ .ok c := by
  intro c hok
  unfold loadJsConfig at hok
  split at hok
  · exact absurd hok (by simp)
  · split at hok
    · exact absurd hok (by simp)
    · cases hcont : env.content configPath with
      | none =>
        simp only [hcont] at hok
        exact absurd hok (by simp)
      | some src =>
        simp only [hcont] at hok
        by_cases hscan : dangerousScan src = true
        · rw [if_pos hscan] at hok
          exact absurd hok (by simp)
        · rw [if_neg hscan] at hok
          rcases htrigger with ⟨src2, hsrc2, hscan2⟩ | him | ⟨m, him⟩
          · rw [hcont] at hsrc2
            injection hsrc2 with hsrc2
            exact hscan (hsrc2 ▸ hscan2)
          · simp only [him] at hok
            exact absurd hok (by simp)
          · simp only [him] at hok
            exact absurd hok (by simp)

theorem hasPre_append_left : ∀ (p l m : List Char), hasPre p l = true → hasPre p (l ++ m) = true
  | [], _, _, _ => rfl
  | _ :: _, [], _, h => by simp [hasPre] at h
  | a :: p, b :: l, m, h => by
    simp only [hasPre, Bool.and_eq_true] at h ⊢
    exact ⟨h.1, hasPre_append_left p l m h.2⟩

theorem strIncludes_of_startsWith (s p : String) (h : strStartsWith s p = true) :
    strIncludes s p = true := by
  unfold strIncludes
  unfold strStartsWith at h
  cases hd : s.data with
  | nil => rw [hd] at h; simpa [listHasSub] using h
  | cons c l =>
    rw [hd] at h
    simp [listHasSub, h]

theorem strStartsWith_append_left (a b p : String) (h : strStartsWith a p = true) :
    strStartsWith (a ++ b) p = true := by
  unfold strStartsWith at h ⊢
  rw [String.data_append]
  exact hasPre_append_left p.data a.data b.data h

/-- A dangerous-pattern match makes loadJsConfig fail with a security
error: every error branch reachable with readable, pattern-matching content
carries the [SECURITY] marker. -/
theorem loadJsConfig_scan_security (env : ConfigEnv) (cwd : List String)
    (configPath root' src : String)
    (hsrc : env.content configPath = some src) (hscan : dangerousScan src = true) :
    ∃ e, loadJsConfig env cwd configPath root' = .error e
      ∧ strIncludes e "[SECURITY]" = true := by
  unfold loadJsConfig
  split
  · exact ⟨_, rfl,
      strIncludes_of_startsWith _ _ (strStartsWith_append_left _ _ _ (by decide))⟩
  · split
    · exact ⟨_, rfl,
        strIncludes_of_startsWith _ _ (strStartsWith_append_left _ _ _
          (strStartsWith_append_left _ _ _ (strStartsWith_append_left _ _ _ (by decide))))⟩
    · simp only [hsrc]
      rw [if_pos hscan]
      exact ⟨_, rfl,
        strIncludes_of_startsWith _ _ (strStartsWith_append_left _ _ _ (by decide))⟩

theorem loadConfigLoop_hit_security (env : ConfigEnv) (cwd : List String) (root' : String)
    (name : String) (rest : List String) (cache : ConfigCache)
    (hbound : relEscapes (relativeSegs (resolveSegs cwd root')
      (resolveSegs cwd (joinPath root' name))) = false)
    (hpresent : env.present (joinPath root' name) = true)
    (hjson : strEndsWith name ".json" = false)
    (e : String)
    (he : loadJsConfig env cwd (joinPath root' name) root' = .error e)
    (hsec : strIncludes e "[SECURITY]" = true) :
    loadConfigLoop env cwd root' true (name :: rest) cache
      = (none, cacheSet cache root' none) := by
  conv_lhs => rw [loadConfigLoop]
  try dsimp only
  rw [if_neg (by rw [hbound]; exact fun h => Bool.false_ne_true h)]
  rw [hpresent]
  rw [if_neg (by decide)]
  rw [hjson]
  rw [if_neg (by decide)]
  rw [if_neg (by decide)]
  simp only [he, hsec, if_true]

theorem loadConfigLoop_hit_fallthrough (env : ConfigEnv) (cwd : List String) (root' : String)
    (name : String) (rest : List String) (cache : ConfigCache)
    (hbound : relEscapes (relativeSegs (resolveSegs cwd root')
      (resolveSegs cwd (joinPath root' name))) = false)
    (hpresent : env.present (joinPath root' name) = true)
    (hjson : strEndsWith name ".json" = false)
    (hnok : ∀ c, loadJsConfig env cwd (joinPath root' name) root' ≠ .ok c)
    (hrest : ∀ n ∈ rest, env.present (joinPath root' n) = false) :
    loadConfigLoop env cwd root' true (name :: rest) cache
      = (none, cacheSet cache root' none) := by
  conv_lhs => rw [loadConfigLoop]
  try dsimp only
  rw [if_neg (by rw [hbound]; exact fun h => Bool.false_ne_true h)]
  rw [hpresent]
  rw [if_neg (by decide)]
  rw [hjson]
  rw [if_neg (by decide)]
  rw [if_neg (by decide)]
  cases hjs : loadJsConfig env cwd (joinPath root' name) root' with
  | ok c => exact absurd hjs (hnok c)
  | error e =>
    simp only [hjs]
    split
    · rfl
    · exact loadConfigLoop_absent env cwd root' true rest cache hrest

theorem loadConfigLoop_skipAll (env : ConfigEnv) (cwd : List String) (root' : String)
    (allowJs : Bool) :
    ∀ (pre tail : List String) (cache : ConfigCache),
      (∀ n ∈ pre, env.present (joinPath root' n) = false) →
      loadConfigLoop env cwd root' allowJs (pre ++ tail) cache
        = loadConfigLoop env cwd root' allowJs tail cache
  | [], _, _, _ => rfl
  | n :: pre, tail, cache, h => by
    rw [List.cons_append,
      loadConfigLoop_skip env cwd root' allowJs n (pre ++ tail) cache
        (h n (List.mem_cons_self n pre))]
    exact loadConfigLoop_skipAll env cwd root' allowJs pre tail cache
      (fun m hm => h m (List.mem_cons_of_mem n hm))

/-- The CONFIG_FILES candidates strictly before a given name in precedence
order. -/
def earlierCandidates (name : String) : List String :=
  CONFIG_FILES.takeWhile (fun n => n ≠ name)

/-- The CONFIG_FILES candidates strictly after a given name in precedence
order. -/
def laterCandidates (name : String) : List String :=
  (CONFIG_FILES.dropWhile (fun n => n ≠ name)).drop 1

theorem config_files_split (name : String) (h : name ∈ jsConfigNames) :
    CONFIG_FILES = earlierCandidates name ++ name :: laterCandidates name := by
  fin_cases h <;> rfl

/-- Counterexample to C4 as stated: a cclint.config.js whose (pattern-clean)
function export times out does not make loadConfig return null when a later
candidate is loadable — the timeout error carries no [SECURITY] marker, so
the loop merely moves on, and the present .cclintrc.js wins: loadConfig
returns and caches that non-null configuration. -/
theorem loadConfig_timeout_claim_counterexample :
    ({ present := fun p => p = "/proj/cclint.config.js" || p = "/proj/.cclintrc.js"
       jsonLoad := fun _ => .error "no json"
       realpath := fun p => some p
       content := fun _ => some "export default cfg"
       importRes := fun p =>
         if p = "/proj/cclint.config.js" then .exportsFn .timesOut
         else .exportsObj {} } : ConfigEnv).importRes "/proj/cclint.config.js"
      = .exportsFn .timesOut
    ∧ loadConfig
        { present := fun p => p = "/proj/cclint.config.js" || p = "/proj/.cclintrc.js"
          jsonLoad := fun _ => .error "no json"
          realpath := fun p => some p
          content := fun _ => some "export default cfg"
          importRes := fun p =>
            if p = "/proj/cclint.config.js" then .exportsFn .timesOut
            else .exportsObj {} }
        [] ([] : List (String × Option CclintConfig)) "/proj" true
      = .ok (some {},
          cacheSet ([] : List (String × Option CclintConfig)) "/proj" (some {}))
    ∧ (some ({} : CclintConfig) ≠ (none : Option CclintConfig)) :=
  ⟨rfl, rfl, by simp⟩

/-- C4 (amended): for a script-based configuration file that is the first
present candidate in precedence order for a validated, uncached project
root: a dangerous static-pattern match makes loadConfig return null and
cache null for the root regardless of any later candidates; a
(pattern-clean) function export that times out at the fixed 5-second bound
or rejects never propagates — the loop falls through, and when no later
candidate is present loadConfig returns null and caches null.  In every
case loadConfig with a validated uncached root raises nothing. -/
theorem loadConfig_js_flagged_spec (env : ConfigEnv) (cwd : List String)
    (cache : ConfigCache) (root root' name : String)
    (hroot : validateProjectRoot cwd root = .ok root')
    (hmiss : cacheLookup cache root' = none)
    (hname : name ∈ jsConfigNames)
    (hbound : relEscapes (relativeSegs (resolveSegs cwd root')
      (resolveSegs cwd (joinPath root' name))) = false)
    (hpresent : env.present (joinPath root' name) = true)
    (hearlier : ∀ other ∈ earlierCandidates name,
      env.present (joinPath root' other) = false) :
    ((∃ src, env.content (joinPath root' name) = some src ∧ dangerousScan src = true) →
      loadConfig env cwd cache root true = .ok (none, cacheSet cache root' none))
    ∧ ((env.importRes (joinPath root' name) = .exportsFn .timesOut
        ∨ (∃ m, env.importRes (joinPath root' name) = .exportsFn (.rejects m))) →
      (∀ other ∈ laterCandidates name, env.present (joinPath root' other) = false) →
      loadConfig env cwd cache root true = .ok (none, cacheSet cache root' none))
    ∧ (∃ out, loadConfig env cwd cache root true = .ok out) := by
  have hjson : strEndsWith name ".json" = false := by
    fin_cases hname <;> decide
  have hload : loadConfig env cwd cache root true
      = .ok (loadConfigLoop env cwd root' true CONFIG_FILES cache) := by
    simp only [loadConfig, hroot, hmiss]
  have hskip : loadConfigLoop env cwd root' true CONFIG_FILES cache
      = loadConfigLoop env cwd root' true (name :: laterCandidates name) cache := by
    rw [config_files_split name hname]
    exact loadConfigLoop_skipAll env cwd root' true (earlierCandidates name)
      (name :: laterCandidates name) cache hearlier
  refine ⟨?_, ?_, ⟨_, hload⟩⟩
  · rintro ⟨src, hsrc, hscan⟩
    obtain ⟨e, he, hsec⟩ :=
      loadJsConfig_scan_security env cwd (joinPath root' name) root' src hsrc hscan
    rw [hload, hskip,
      loadConfigLoop_hit_security env cwd root' name (laterCandidates name) cache
        hbound hpresent hjson e he hsec]
  · intro htrigger hlater
    have hnok := loadJsConfig_trigger_error env cwd (joinPath root' name) root'
      (Or.inr (htrigger.imp (fun h => h) (fun h => h)))
    rw [hload, hskip,
      loadConfigLoop_hit_fallthrough env cwd root' name (laterCandidates name) cache
        hbound hpresent hjson hnok hlater]

/-- Witness for C4 at concrete inputs: the only present candidate is a
cclint.config.js containing an eval call; loadConfig yields a cached null
configuration. -/
theorem loadConfig_js_flagged_spec_witness :
    dangerousScan "eval(x)" = true
    ∧ loadConfig
        { present := fun p => p = "/proj/cclint.config.js"
          jsonLoad := fun _ => .error "no json"
          realpath := fun p => some p
          content := fun _ => some "eval(x)"
          importRes := fun _ => .throws "not reached" }
        [] ([] : List (String × Option CclintConfig)) "/proj" true
      = .ok (none, cacheSet ([] : List (String × Option CclintConfig)) "/proj" none) :=
  ⟨by decide,
   (loadConfig_js_flagged_spec
     { present := fun p => p = "/proj/cclint.config.js"
       jsonLoad := fun _ => .error "no json"
       realpath := fun p => some p
       content := fun _ => some "eval(x)"
       importRes := fun _ => .throws "not reached" }
     [] ([] : List (String × Option CclintConfig)) "/proj" "/proj" "cclint.config.js"
     (by rfl) rfl (by decide) (by decide) (by decide)
     (by intro other hother; fin_cases hother <;> decide)).1
   ⟨"eval(x)", rfl, by decide⟩⟩

end Cclint
